import Mathlib

/-!
# fan2go: fan controller and hwmon fan handle

A shallow embedding of `internal/controller/controller.go`, `internal/fans/hwmon.go`
and `internal/util/file.go`, followed by theorems about the embedded functions.

Conventions of the embedding

* Go `int` is `Int`; the PWM domain is far away from the 64-bit limits.
* A Go `map[int]int` is the list of its entries; a `range` over the map visits the
  entries in an order chosen by the runtime, so a function that ranges over a map
  receives the visited order as its argument.  A lookup of an absent key yields `0`.
* A Go `(value, error)` result is a pair `Int × Option GoError`.
* The integer files of the hardware monitoring directory are an abstract device
  `Sysfs σ`; every function that touches them passes a `World σ` along, which also
  records each write that was issued.
-/

namespace Fan2go

/-! ## Constants of package `fans` -/

/-- Modelled from the spec: the constant `fans.MaxPwmValue` is declared outside the
embedded files; the spec fixes it as `MaxPwmValue=255`. -/
def MaxPwmValue : Int := 255

/-- Modelled from the spec: the constant `fans.MinPwmValue` is declared outside the
embedded files; the spec fixes it as `MinPwmValue=0`. -/
def MinPwmValue : Int := 0

/-- Modelled from the spec: `fans.ControlModeDisabled`, declared outside the embedded
files; `disabled(0)` in the spec and `0 - no control` in the comment of `SetPwmEnabled`. -/
def ControlModeDisabled : Int := 0

/-- Modelled from the spec: `fans.ControlModePWM`, declared outside the embedded
files; `manual-pwm(1)` in the spec and `1 - manual pwm control` in the comment of
`SetPwmEnabled`. -/
def ControlModePWM : Int := 1

/-! ## Go maps -/

/-- Entries of a Go `map[int]int`. -/
abbrev PwmMap := List (Int × Int)

/-- Go map index expression `m[k]`: the stored value, or the zero value when absent. -/
def PwmMap.get (m : PwmMap) (k : Int) : Int :=
  (List.lookup k m).getD 0

/-! ## `updateDistinctPwmValues` -/

/-- Loop body of `updateDistinctPwmValues`: the accumulator is `(keys, lastDistinctOutput)`. -/
def distinctStep (acc : List Int × Int) (entry : Int × Int) : List Int × Int :=
  if acc.2 = -1 ∨ acc.2 ≠ entry.2 then (acc.1 ++ [entry.1], entry.2) else acc

/-- Embedding of `updateDistinctPwmValues`: the value assigned to `pwmValuesWithDistinctTarget`.
The argument is the sequence of entries as `range f.pwmMap` visits them;
`sort.Ints` is insertion sort. -/
def updateDistinctPwmValues (visited : List (Int × Int)) : List Int :=
  List.insertionSort (· ≤ ·) (visited.foldl distinctStep ([], -1)).1

/-- The quantized PWM map of the spec's scenario 2: `M[i] = i & 0xF8` for `i` in `0..255`,
entries in ascending key order. -/
def quantizedMap : PwmMap :=
  (List.range 256).map (fun i => (Int.ofNat i, Int.ofNat (i &&& 0xF8)))

/-- The entries of `quantizedMap` visited with the entry of key 8 first and the others in
ascending order after it: keys `8, 0, 1, …, 7, 9, 10, …, 255`. -/
def quantizedMapEightFirst : List (Int × Int) :=
  (quantizedMap.drop 8).take 1 ++ (quantizedMap.take 8 ++ quantizedMap.drop 9)

/-! ## binary64 arithmetic

`calculateTargetPwm` rescales its target in `float64`.  The values met there are finite
and far from the overflow and subnormal ranges, so a finite binary64 number is modelled
as `m * 2^e` and every operation is the exact rational result rounded to 53 significant
bits, ties to even. -/

/-- A finite binary64 value `m * 2^e`. -/
structure F64 where
  m : Int
  e : Int
deriving DecidableEq, Repr

/-- Numerator of the value of `x` written as a fraction with a power of two below. -/
def F64.num (x : F64) : Int := if 0 ≤ x.e then x.m * 2 ^ x.e.toNat else x.m

/-- Denominator of the value of `x`. -/
def F64.den (x : F64) : Nat := if 0 ≤ x.e then 1 else 2 ^ (-x.e).toNat

/-- Number of binary digits of `n`, counted in at most `steps` halvings. -/
def bitLength : Nat → Nat → Nat
  | 0, _ => 0
  | steps + 1, n => if n = 0 then 0 else bitLength steps (n / 2) + 1

/-- Position of the leading binary digit of `n`: the floor of its binary logarithm. -/
def ilog2 (n : Nat) : Nat := bitLength n n - 1

/-- The binary64 number nearest to `n / d` (for `0 < d`), ties to even. -/
def F64.round (n : Int) (d : Nat) : F64 :=
  if n = 0 then ⟨0, 0⟩ else
  let a := n.natAbs
  let k0 : Int := 52 - ((ilog2 a : Int) - (ilog2 d : Int))
  let p0 : Nat := if 0 ≤ k0 then a * 2 ^ k0.toNat else a
  let q0 : Nat := if 0 ≤ k0 then d else d * 2 ^ (-k0).toNat
  let k : Int := if p0 / q0 < 2 ^ 52 then k0 + 1 else k0
  let p : Nat := if 0 ≤ k then a * 2 ^ k.toNat else a
  let q : Nat := if 0 ≤ k then d else d * 2 ^ (-k).toNat
  let fl : Nat := p / q
  let r : Nat := p % q
  let mant : Nat := if q < 2 * r ∨ (2 * r = q ∧ fl % 2 = 1) then fl + 1 else fl
  ⟨n.sign * mant, -k⟩

/-- Go conversion `float64(x)` of an `int`. -/
def F64.ofInt (x : Int) : F64 := F64.round x 1

/-- Go `x / y` on `float64`, for `y` different from zero. -/
def F64.div (x y : F64) : F64 :=
  F64.round (x.num * y.den * y.num.sign) (x.den * y.num.natAbs)

/-- Go `x - y` on `float64`. -/
def F64.sub (x y : F64) : F64 := F64.round (x.num * y.den - y.num * x.den) (x.den * y.den)

/-- Go `x * y` on `float64`. -/
def F64.mul (x y : F64) : F64 := F64.round (x.num * y.num) (x.den * y.den)

/-- Go `x + y` on `float64`. -/
def F64.add (x y : F64) : F64 := F64.round (x.num * y.den + y.num * x.den) (x.den * y.den)

/-- Go conversion `int(x)` of a `float64`: truncation toward zero. -/
def F64.toInt (x : F64) : Int := Int.tdiv x.num x.den

/-- Go comparison `x <= y` on `float64`. -/
def F64.le (x y : F64) : Prop := x.num * y.den ≤ y.num * x.den

instance F64.decLe (x y : F64) : Decidable (F64.le x y) := Int.decLe _ _

/-- Go comparison `x < y` on `float64`. -/
def F64.lt (x y : F64) : Prop := x.num * y.den < y.num * x.den

instance F64.decLt (x y : F64) : Decidable (F64.lt x y) := Int.decLt _ _

/-- Go `math.Ceil`. -/
def F64.ceil (x : F64) : F64 := F64.round (-((-x.num) / (x.den : Int))) 1

/-- Go `math.Abs`. -/
def F64.abs (x : F64) : F64 := ⟨Int.ofNat x.m.natAbs, x.e⟩

/-- Go `math.Round`: nearest integer, halves away from zero. -/
def F64.roundHalfAway (x : F64) : F64 :=
  F64.round (x.num.sign * ((2 * Int.ofNat x.num.natAbs + x.den) / (2 * (x.den : Int)))) 1

/-! ## The integer files: `internal/util/file.go` -/

/-- Go `error` values that occur in the embedded code. -/
inductive GoError where
  /-- an error of the operating system or of `strconv.Atoi`, told apart by a code -/
  | os (code : Nat)
  /-- the value `os.ErrInvalid` -/
  | invalid
  /-- the value `errors.New(fmt.Sprintf("PWM mode stuck to %d", currentValue))` -/
  | modeStuck (currentValue : Int)
deriving DecidableEq, Repr

/-- The three integer files of one fan: `pwmN`, `pwmN_enable` and `fanN_input`. -/
inductive Endpoint where
  | pwmOutput
  | pwmEnable
  | rpmInput
deriving DecidableEq, Repr

/-- What reading a file and parsing its text can give. -/
inductive FileRead where
  /-- the call of `ioutil.ReadFile` failed -/
  | unreadable (err : GoError)
  /-- the text is the decimal form of `value` -/
  | number (value : Int)
  /-- the text was rejected by `strconv.Atoi`, which returned `value` with `err` -/
  | malformed (value : Int) (err : GoError)
deriving DecidableEq, Repr

/-- The hardware monitoring directory of one fan, over a state `σ` of the machine. -/
structure Sysfs (σ : Type) where
  /-- reading a file; the machine may move on while it is read -/
  readFile : Endpoint → σ → FileRead × σ
  /-- opening a file and writing a number to it -/
  writeFile : Endpoint → Int → σ → Option GoError × σ
  /-- whether `os.Stat` succeeds on the file -/
  fileExists : Endpoint → σ → Bool

/-- The machine together with the list of writes issued so far, oldest first. -/
structure World (σ : Type) where
  dev : σ
  writes : List (Endpoint × Int)
deriving DecidableEq

/-- Embedding of `util.ReadIntFromFile`. -/
def ReadIntFromFile {σ : Type} (sys : Sysfs σ) (path : Endpoint) (w : World σ) :
    (Int × Option GoError) × World σ :=
  match sys.readFile path w.dev with
  | (FileRead.unreadable err, d) => ((-1, some err), { w with dev := d })
  | (FileRead.number value, d) => ((value, none), { w with dev := d })
  | (FileRead.malformed value err, d) => ((value, some err), { w with dev := d })

/-- Embedding of `util.WriteIntToFile`. -/
def WriteIntToFile {σ : Type} (sys : Sysfs σ) (value : Int) (path : Endpoint) (w : World σ) :
    Option GoError × World σ :=
  match sys.writeFile path value w.dev with
  | (err, d) => (err, { dev := d, writes := w.writes ++ [(path, value)] })

/-! ## The fan handle: `internal/fans/hwmon.go` -/

/-- The fields of `configuration.FanConfig` that the embedded code reads or writes
(the type is declared outside the embedded files). -/
structure FanConfig where
  ID : String
  NeverStop : Bool
  Curve : String
  MinPwm : Option Int
  MaxPwm : Option Int
  /-- the field `HwMon.RpmInput` -/
  RpmInput : String
  /-- the field `HwMon.PwmOutput` -/
  PwmOutput : String
deriving DecidableEq, Repr

/-- Embedding of the struct `HwMonFan`. -/
structure HwMonFan where
  Label : String
  Index : Int
  RpmMovingAvg : F64
  Config : FanConfig
  StartPwm : Option Int
  FanCurveData : Option (List (Int × F64))
  Rpm : Int
  Pwm : Int
deriving DecidableEq

/-- The type `fans.FeatureFlag`. -/
inductive FeatureFlag where
  | FeatureControlMode
  | FeatureRpmSensor
deriving DecidableEq, Repr

namespace HwMonFan

def GetId (fan : HwMonFan) : String := fan.Config.ID

def GetStartPwm (fan : HwMonFan) : Int :=
  match fan.StartPwm with
  | some pwm => pwm
  | none => MaxPwmValue

def SetStartPwm (fan : HwMonFan) (pwm : Int) : HwMonFan :=
  { fan with StartPwm := some pwm }

def ShouldNeverStop (fan : HwMonFan) : Bool := fan.Config.NeverStop

def GetMinPwm (fan : HwMonFan) : Int :=
  if fan.ShouldNeverStop then
    match fan.Config.MinPwm with
    | some pwm => pwm
    | none => MinPwmValue
  else MinPwmValue

def SetMinPwm (fan : HwMonFan) (pwm : Int) : HwMonFan :=
  { fan with Config := { fan.Config with MinPwm := some pwm } }

def GetMaxPwm (fan : HwMonFan) : Int :=
  match fan.Config.MaxPwm with
  | some pwm => pwm
  | none => MaxPwmValue

def SetMaxPwm (fan : HwMonFan) (pwm : Int) : HwMonFan :=
  { fan with Config := { fan.Config with MaxPwm := some pwm } }

def GetRpm {σ : Type} (sys : Sysfs σ) (fan : HwMonFan) (w : World σ) :
    (Int × Option GoError) × HwMonFan × World σ :=
  match ReadIntFromFile sys Endpoint.rpmInput w with
  | ((_, some err), w1) => ((0, some err), fan, w1)
  | ((value, none), w1) => ((value, none), { fan with Rpm := value }, w1)

def GetRpmAvg (fan : HwMonFan) : F64 := fan.RpmMovingAvg

def SetRpmAvg (fan : HwMonFan) (rpm : F64) : HwMonFan :=
  { fan with RpmMovingAvg := rpm }

def GetPwm {σ : Type} (sys : Sysfs σ) (fan : HwMonFan) (w : World σ) :
    (Int × Option GoError) × HwMonFan × World σ :=
  match ReadIntFromFile sys Endpoint.pwmOutput w with
  | ((_, some err), w1) => ((MinPwmValue, some err), fan, w1)
  | ((value, none), w1) => ((value, none), { fan with Pwm := value }, w1)

def SetPwm {σ : Type} (sys : Sysfs σ) (pwm : Int) (w : World σ) :
    Option GoError × World σ :=
  WriteIntToFile sys pwm Endpoint.pwmOutput w

def GetFanCurveData (fan : HwMonFan) : Option (List (Int × F64)) := fan.FanCurveData

/-- Embedding of `AttachFanCurveData`.  `ComputePwmBoundaries` is declared outside the
embedded files and is a parameter; it receives the fan with the curve attached. -/
def AttachFanCurveData (ComputePwmBoundaries : HwMonFan → Int × Int) (fan : HwMonFan)
    (curveData : Option (List (Int × F64))) : Option GoError × HwMonFan :=
  match curveData with
  | none => (some GoError.invalid, fan)
  | some data =>
    if data.length ≤ 0 then (some GoError.invalid, fan)
    else
      let fan1 := { fan with FanCurveData := some data }
      let bounds := ComputePwmBoundaries fan1
      let fan2 := fan1.SetStartPwm bounds.1
      let fan3 := fan2.SetMaxPwm bounds.2
      let fan4 := fan3.SetMinPwm bounds.1
      (none, fan4)

def GetCurveId (fan : HwMonFan) : String := fan.Config.Curve

def GetPwmEnabled {σ : Type} (sys : Sysfs σ) (w : World σ) :
    (Int × Option GoError) × World σ :=
  ReadIntFromFile sys Endpoint.pwmEnable w

def IsPwmAuto {σ : Type} (sys : Sysfs σ) (w : World σ) :
    (Bool × Option GoError) × World σ :=
  match GetPwmEnabled sys w with
  | ((_, some err), w1) => ((false, some err), w1)
  | ((value, none), w1) => ((decide (value > 1), none), w1)

def SetPwmEnabled {σ : Type} (sys : Sysfs σ) (value : Int) (w : World σ) :
    Option GoError × World σ :=
  match WriteIntToFile sys value Endpoint.pwmEnable w with
  | (none, w1) =>
    match ReadIntFromFile sys Endpoint.pwmEnable w1 with
    | ((currentValue, err), w2) =>
      if err ≠ none ∨ currentValue ≠ value then (some (GoError.modeStuck currentValue), w2)
      else (none, w2)
  | (some err, w1) => (some err, w1)

def Supports {σ : Type} (sys : Sysfs σ) (fan : HwMonFan) (feature : FeatureFlag)
    (w : World σ) : Bool :=
  match feature with
  | FeatureFlag.FeatureControlMode => sys.fileExists Endpoint.pwmEnable w.dev
  | FeatureFlag.FeatureRpmSensor => decide (fan.Config.RpmInput.length > 0)

end HwMonFan

/-! ## The controller: `internal/controller/controller.go` -/

/-- Go map index expression on a map that may be `nil`. -/
def mapIndex (m : Option PwmMap) (k : Int) : Int :=
  match m with
  | some entries => PwmMap.get entries k
  | none => 0

/-- Go map assignment `m[k] = v` on the entries of a map with `int` keys. -/
def goMapSet {β : Type} (m : List (Int × β)) (k : Int) (v : β) : List (Int × β) :=
  m.filter (fun entry => entry.1 ≠ k) ++ [(k, v)]

/-- Embedding of the struct `fanController`, with the fields that the embedded
functions use; `π` is the state of the PID loop.  The speed curve, the persistence
gateway and the update rate are collaborators outside the embedded files: the result
of `curve.Evaluate()` and the other collaborators are arguments of the functions that
call them. -/
structure fanController (π : Type) where
  fan : HwMonFan
  originalPwmEnabled : Int
  originalPwmValue : Int
  lastSetPwm : Option Int
  pwmValuesWithDistinctTarget : List Int
  pwmMap : Option PwmMap
  pidLoop : π
deriving DecidableEq

section Controller

variable {σ π : Type}

/-- Embedding of `trySetManualPwm`. -/
def trySetManualPwm (sys : Sysfs σ) (fan : HwMonFan) (w : World σ) :
    Option GoError × World σ :=
  if ¬ fan.Supports sys FeatureFlag.FeatureControlMode w then (none, w)
  else
    match HwMonFan.SetPwmEnabled sys ControlModePWM w with
    | (none, w1) => (none, w1)
    | (some _, w1) => HwMonFan.SetPwmEnabled sys ControlModeDisabled w1

/-- Embedding of `setPwm`. -/
def setPwm (sys : Sysfs σ) (f : fanController π) (target : Int) (w : World σ) :
    Option GoError × fanController π × World σ :=
  match f.fan.GetPwm sys w with
  | ((current, err), fan1, w1) =>
    let f1 := { f with fan := fan1, lastSetPwm := some target }
    if err = none ∧ mapIndex f1.pwmMap target = current then (none, f1, w1)
    else
      match HwMonFan.SetPwm sys target w1 with
      | (err2, w2) => (err2, f1, w2)

/-- Embedding of `restorePwmEnabled`. -/
def restorePwmEnabled (sys : Sysfs σ) (f : fanController π) (w : World σ) :
    fanController π × World σ :=
  match setPwm sys f f.originalPwmValue w with
  | (_, f1, w1) =>
    if f1.fan.Supports sys FeatureFlag.FeatureControlMode w1 = true
        ∧ f1.originalPwmEnabled ≠ ControlModePWM then
      match HwMonFan.SetPwmEnabled sys f1.originalPwmEnabled w1 with
      | (none, w2) => (f1, w2)
      | (some _, w2) => (setPwm sys f1 MaxPwmValue w2).2
    else (setPwm sys f1 MaxPwmValue w1).2

/-- Embedding of `mapToClosestDistinct`.  `util.FindClosest` is declared outside the
embedded files and is a parameter. -/
def mapToClosestDistinct (FindClosest : Int → List Int → Int) (f : fanController π)
    (target : Int) : Int :=
  let closest := FindClosest target f.pwmValuesWithDistinctTarget
  mapIndex f.pwmMap closest

/-- The first half of `calculateTargetPwm`, up to the quantization: the curve value is
clamped to the PWM range, rescaled in `float64` to the range of the fan and mapped to the
closest distinct value. -/
def quantizedTarget (FindClosest : Int → List Int → Int) (f : fanController π)
    (curveValue : Int) : Int :=
  let target :=
    if curveValue > MaxPwmValue then MaxPwmValue
    else if curveValue < MinPwmValue then MinPwmValue
    else curveValue
  let maxPwm := f.fan.GetMaxPwm
  let minPwm := f.fan.GetMinPwm
  let target := minPwm + F64.toInt (F64.mul
    (F64.div (F64.ofInt target) (F64.ofInt MaxPwmValue))
    (F64.sub (F64.ofInt maxPwm) (F64.ofInt minPwm)))
  mapToClosestDistinct FindClosest f target

/-- The target of `calculateTargetPwm` after the clamp to `[MinPwmValue, MaxPwmValue]` and
the rescaling to `[min_pwm, max_pwm]`, before it is snapped to a distinct-target value. -/
def rescaledTarget (f : fanController π) (curveValue : Int) : Int :=
  let target :=
    if curveValue > MaxPwmValue then MaxPwmValue
    else if curveValue < MinPwmValue then MinPwmValue
    else curveValue
  let maxPwm := f.fan.GetMaxPwm
  let minPwm := f.fan.GetMinPwm
  minPwm + F64.toInt (F64.mul
    (F64.div (F64.ofInt target) (F64.ofInt MaxPwmValue))
    (F64.sub (F64.ofInt maxPwm) (F64.ofInt minPwm)))

/-- The third-party check in the middle of `calculateTargetPwm`: when a PWM was set before
and there is a PWM map, the current PWM is read; the comparison with the expected value
only decides about a warning. -/
def thirdPartyCheck (sys : Sysfs σ) (f : fanController π) (w : World σ) : HwMonFan × World σ :=
  if f.lastSetPwm ≠ none ∧ f.pwmMap ≠ none then (f.fan.GetPwm sys w).2
  else (f.fan, w)

/-- Embedding of `calculateTargetPwm`.  The argument `curve` is the result of
`f.curve.Evaluate()`; on an error `ui.Fatal` ends the process and there is no result.
The warnings are not part of the model, the read of the third-party check is. -/
def calculateTargetPwm (sys : Sysfs σ) (FindClosest : Int → List Int → Int)
    (curve : Int × Option GoError) (f : fanController π) (w : World σ) :
    Option (Int × fanController π × World σ) :=
  match curve with
  | (_, some _) => none
  | (curveValue, none) =>
    let maxPwm := f.fan.GetMaxPwm
    let target := quantizedTarget FindClosest f curveValue
    let checked := thirdPartyCheck sys f w
    let fan := checked.1
    let w1 := checked.2
    if fan.Supports sys FeatureFlag.FeatureRpmSensor w1 = true then
      let shouldNeverStop := fan.ShouldNeverStop
      -- `f.lastSetPwm == &target` compares with the address of a fresh local: never equal
      if shouldNeverStop = true ∧ (f.lastSetPwm ≠ none ∨ False) then
        let avgRpm := fan.GetRpmAvg
        if F64.le avgRpm (F64.ofInt 0) then
          if target ≥ maxPwm then some (-1, { f with fan := fan }, w1)
          else
            let fan := fan.SetMinPwm (fan.GetMinPwm + 1)
            let fan := fan.SetRpmAvg (F64.ofInt 1)
            some (target + 1, { f with fan := fan }, w1)
        else some (target, { f with fan := fan }, w1)
      else some (target, { f with fan := fan }, w1)
    else some (target, { f with fan := fan }, w1)

/-- Modelled from the spec: `util.Coerce` is declared outside the embedded files; the
spec gives `clamp(current + correction, 0, 255)`. -/
def Coerce (value min max : F64) : F64 :=
  if F64.lt max value then max
  else if F64.lt value min then min
  else value

/-- The arithmetic of `UpdateFanSpeed` on the output `correction` of the PID loop: its
ceiling is added to the current PWM, the sum is coerced into `[0, 255]` and rounded. -/
def roundedPidTarget (correction : F64) (currentPwm : Int) : Int :=
  let pidControllerTarget := F64.ceil correction
  let coerced := Coerce (F64.add (F64.ofInt currentPwm) pidControllerTarget)
    (F64.ofInt 0) (F64.ofInt 255)
  F64.toInt (F64.roundHalfAway coerced)

/-- Embedding of `UpdateFanSpeed`.  `Loop` is the method `util.PidLoop.Loop`, declared
outside the embedded files: from the state of the loop, the target and the measured
value it gives the correction and the next state. -/
def UpdateFanSpeed (sys : Sysfs σ) (FindClosest : Int → List Int → Int)
    (Loop : π → F64 → F64 → F64 × π) (curve : Int × Option GoError)
    (f : fanController π) (w : World σ) :
    Option (Option GoError × fanController π × World σ) :=
  match f.fan.GetPwm sys w with
  | ((_, some err), fan1, w1) => some (some err, { f with fan := fan1 }, w1)
  | ((currentPwm, none), fan1, w1) =>
    match calculateTargetPwm sys FindClosest curve { f with fan := fan1 } w1 with
    | none => none
    | some (target, f2, w2) =>
      let looped := Loop f2.pidLoop (F64.ofInt target) (F64.ofInt currentPwm)
      let f3 := { f2 with pidLoop := looped.2 }
      let roundedTarget := roundedPidTarget looped.1 currentPwm
      if target ≥ 0 then
        match trySetManualPwm sys f3.fan w2 with
        | (_, w3) =>
          match setPwm sys f3 roundedTarget w3 with
          | (_, f4, w4) => some (none, f4, w4)
      else some (none, f3, w2)

/-- Loop of `computePwmMap` over the values `i` still to be probed: set `i`, read the
PWM back (an error leaves the value `MinPwmValue` that `GetPwm` returns with it) and
record it. -/
def computePwmMapLoop (sys : Sysfs σ) :
    List Int → HwMonFan → PwmMap → World σ → PwmMap × HwMonFan × World σ
  | [], fan, pwmMap, w => (pwmMap, fan, w)
  | i :: rest, fan, pwmMap, w =>
    match HwMonFan.SetPwm sys i w with
    | (_, w1) =>
      match fan.GetPwm sys w1 with
      | ((pwm, _), fan1, w2) => computePwmMapLoop sys rest fan1 (goMapSet pwmMap i pwm) w2

/-- The values `fans.MaxPwmValue, …, fans.MinPwmValue` in the order of the loop
`for i := fans.MaxPwmValue; i >= fans.MinPwmValue; i--`. -/
def probedValues : List Int :=
  (List.range (MaxPwmValue - MinPwmValue + 1).toNat).map (fun i => MaxPwmValue - Int.ofNat i)

/-- Embedding of `computePwmMap`. -/
def computePwmMap (sys : Sysfs σ) (f : fanController π) (w : World σ) :
    fanController π × World σ :=
  match trySetManualPwm sys f.fan w with
  | (_, w1) =>
    match computePwmMapLoop sys probedValues f.fan [] w1 with
    | (pwmMap, fan1, w2) =>
      let f1 := { f with fan := fan1, pwmMap := some pwmMap }
      match HwMonFan.SetPwm sys (mapIndex f1.pwmMap fan1.GetStartPwm) w2 with
      | (_, w3) => (f1, w3)

/-- Modelled from the spec: `util.GetWindowMax` on the rolling window of
`waitForFanToSettle` is declared outside the embedded files; the spec speaks of
`the window's maximum`. -/
def GetWindowMax (window : List F64) : F64 :=
  match window with
  | [] => F64.ofInt 0
  | x :: rest => rest.foldl (fun best y => if F64.lt best y then y else best) x

/-- Modelled from the spec: `Append` on the rolling window of `waitForFanToSettle` is
declared outside the embedded files; the spec speaks of a `rolling window (size 10)`, so
the oldest value leaves when a value is appended. -/
def windowAppend (window : List F64) (value : F64) : List F64 :=
  window.tail ++ [value]

/-- Loop of `waitForFanToSettle`; `steps` bounds the number of iterations and the result
is `none` when the fan has not settled within them. -/
def settleLoop (sys : Sysfs σ) (diffThreshold : F64) :
    Nat → HwMonFan → List F64 → F64 → Int → World σ → Option (HwMonFan × World σ)
  | steps, fan, window, measuredRpmDiffMax, oldRpm, w =>
    if F64.lt measuredRpmDiffMax diffThreshold then some (fan, w)
    else
      match steps with
      | 0 => none
      | steps + 1 =>
        match fan.GetRpm sys w with
        | ((_, some _), fan1, w1) =>
          settleLoop sys diffThreshold steps fan1 window measuredRpmDiffMax oldRpm w1
        | ((currentRpm, none), fan1, w1) =>
          let window1 := windowAppend window (F64.abs (F64.ofInt (currentRpm - oldRpm)))
          settleLoop sys diffThreshold steps fan1 window1
            (F64.ceil (GetWindowMax window1)) currentRpm w1

/-- Embedding of `waitForFanToSettle`.  `diffThreshold` is the configuration value
`MaxRpmDiffForSettledFan`; the window of size 10 is filled with `2*diffThreshold`. -/
def waitForFanToSettle (sys : Sysfs σ) (diffThreshold : F64) (steps : Nat) (fan : HwMonFan)
    (w : World σ) : Option (HwMonFan × World σ) :=
  let filled := F64.mul (F64.ofInt 2) diffThreshold
  settleLoop sys diffThreshold steps fan (List.replicate 10 filled) filled 0 w

/-- State of the loop of `measureFanCurve`. -/
structure MeasureState (σ π : Type) where
  f : fanController π
  curveData : List (Int × F64)
  initialMeasurement : Bool
  w : World σ

/-- Loop of `measureFanCurve` over the values that the loop variable `pwm` takes.  The
outer `none` is a fan that does not settle within `steps`; an error inside ends the loop
and is returned with the state reached. -/
def measureLoop (sys : Sysfs σ) (diffThreshold : F64) (steps : Nat) :
    List Int → MeasureState σ π → Option (Option GoError × MeasureState σ π)
  | [], st => some (none, st)
  | pwm :: rest, st =>
    match setPwm sys st.f pwm st.w with
    | (some err, f1, w1) => some (some err, { st with f := f1, w := w1 })
    | (none, f1, w1) =>
      match f1.fan.GetPwm sys w1 with
      | ((_, some err), fan2, w2) =>
        some (some err, { st with f := { f1 with fan := fan2 }, w := w2 })
      | ((actualPwm, none), fan2, w2) =>
        if actualPwm ≠ pwm then
          measureLoop sys diffThreshold steps rest { st with f := { f1 with fan := fan2 }, w := w2 }
        else
          let settled : Option (HwMonFan × World σ) :=
            if st.initialMeasurement = true then
              waitForFanToSettle sys diffThreshold steps fan2 w2
            else some (fan2, w2)
          match settled with
          | none => none
          | some (fan3, w3) =>
            match fan3.GetRpm sys w3 with
            | ((_, some err), fan4, w4) =>
              some (some err, { f := { f1 with fan := fan4 }, curveData := st.curveData,
                                initialMeasurement := false, w := w4 })
            | ((rpm, none), fan4, w4) =>
              let fan5 := fan4.SetRpmAvg (F64.ofInt rpm)
              measureLoop sys diffThreshold steps rest
                { f := { f1 with fan := fan5 },
                  curveData := goMapSet st.curveData pwm (F64.ofInt rpm),
                  initialMeasurement := false, w := w4 }

/-- Embedding of `measureFanCurve`.  In `for pwm := range f.pwmValuesWithDistinctTarget`
the single loop variable of a `range` over a slice is the index, so `pwm` takes the values
`0, …, len-1`.  `SaveFanPwmData` is the method of the persistence gateway, declared
outside the embedded files.  The result holds the error returned, the controller, the
curve measured and the world. -/
def measureFanCurve (sys : Sysfs σ) (ComputePwmBoundaries : HwMonFan → Int × Int)
    (SaveFanPwmData : HwMonFan → Option GoError) (diffThreshold : F64) (steps : Nat)
    (f : fanController π) (w : World σ) :
    Option (Option GoError × fanController π × List (Int × F64) × World σ) :=
  match trySetManualPwm sys f.fan w with
  | (_, w1) =>
    let indices := (List.range f.pwmValuesWithDistinctTarget.length).map Int.ofNat
    match measureLoop sys diffThreshold steps indices
        { f := f, curveData := [], initialMeasurement := true, w := w1 } with
    | none => none
    | some (some err, st) => some (some err, st.f, st.curveData, st.w)
    | some (none, st) =>
      match st.f.fan.AttachFanCurveData ComputePwmBoundaries (some st.curveData) with
      | (some err, fan1) => some (some err, { st.f with fan := fan1 }, st.curveData, st.w)
      | (none, fan1) =>
        some (SaveFanPwmData fan1, { st.f with fan := fan1 }, st.curveData, st.w)

/-- The controller `f` equipped with the PWM map that `computePwmMap` produces when it is
run on the controller `f0` in the world `w0`. -/
def withComputedMap (sys : Sysfs σ) (f0 : fanController π) (w0 : World σ)
    (f : fanController π) : fanController π :=
  { f with pwmMap := (computePwmMap sys f0 w0).1.pwmMap }

end Controller

/-! ## A stable simulated fan -/

/-- State of the simulated fan: the numbers in `pwmN` and `pwmN_enable`. -/
structure SimFan where
  pwm : Int
  enable : Int
deriving DecidableEq, Repr

/-- A stable simulated fan: after a write of `x` the PWM file reports `response x`, the
RPM file reports `rpmOf` of the PWM, the control mode file (when there is one) keeps
what is written, and no read or write fails on a file that exists. -/
def simSysfs (response : Int → Int) (rpmOf : Int → Int) (hasEnable : Bool) : Sysfs SimFan where
  readFile path s :=
    match path with
    | Endpoint.pwmOutput => (FileRead.number s.pwm, s)
    | Endpoint.pwmEnable =>
      if hasEnable then (FileRead.number s.enable, s) else (FileRead.unreadable (GoError.os 2), s)
    | Endpoint.rpmInput => (FileRead.number (rpmOf s.pwm), s)
  writeFile path value s :=
    match path with
    | Endpoint.pwmOutput => (none, { s with pwm := response value })
    | Endpoint.pwmEnable =>
      if hasEnable then (none, { s with enable := value }) else (some (GoError.os 2), s)
    | Endpoint.rpmInput => (some (GoError.os 13), s)
  fileExists path _ :=
    match path with
    | Endpoint.pwmEnable => hasEnable
    | _ => true

/-- A fan whose PWM file cannot be written: every write to it fails, its reads and the
control mode file work as on the stable fan. -/
def writeProtectedSysfs : Sysfs SimFan where
  readFile path s :=
    match path with
    | Endpoint.pwmOutput => (FileRead.number s.pwm, s)
    | Endpoint.pwmEnable => (FileRead.number s.enable, s)
    | Endpoint.rpmInput => (FileRead.number (10 * s.pwm), s)
  writeFile path value s :=
    match path with
    | Endpoint.pwmOutput => (some (GoError.os 13), s)
    | Endpoint.pwmEnable => (none, { s with enable := value })
    | Endpoint.rpmInput => (some (GoError.os 13), s)
  fileExists _ _ := true

/-- Modelled from the spec: `util.FindClosest` is declared outside the embedded files; the
spec calls it `nearest(target, distinct_target_set)`.  The member of the list closest to
the target, the earlier one when two are equally close; `0` on the empty list. -/
def nearest (target : Int) (options : List Int) : Int :=
  match options with
  | [] => 0
  | x :: rest =>
    rest.foldl (fun best y => if (y - target).natAbs < (best - target).natAbs then y else best) x

/-! ## Concrete fans and states used by the examples -/

/-- What the PWM file of the quantized fan reports after a write of `x`: `x & 0xF8`. -/
def quantizedResponse (x : Int) : Int := Int.ofNat (x.toNat &&& 0xF8)

/-- The RPM of the simulated fans: ten times the PWM value. -/
def tenfold (pwm : Int) : Int := 10 * pwm

/-- The hardware of the quantized fan: a write of `x` leaves `x & 0xF8` in the PWM file,
the fan turns at ten times the PWM value. -/
def quantizedSysfs (hasEnable : Bool) : Sysfs SimFan :=
  simSysfs quantizedResponse tenfold hasEnable

/-- A fan handle with the given never-stop flag, minimum, start value and RPM input. -/
def exampleFan (neverStop : Bool) (minPwm startPwm : Int) (rpmInput : String) (avg : Int) :
    HwMonFan :=
  { Label := "fan1", Index := 1, RpmMovingAvg := F64.ofInt avg,
    Config := { ID := "fan1", NeverStop := neverStop, Curve := "curve1",
                MinPwm := some minPwm, MaxPwm := some 255,
                RpmInput := rpmInput, PwmOutput := "hwmon0/pwm1" },
    StartPwm := some startPwm, FanCurveData := none, Rpm := 0, Pwm := 0 }

/-- A controller of `fan` whose PWM map is the quantized map and whose distinct values
come from a walk of that map in ascending key order. -/
def quantizedController (fan : HwMonFan) (lastSetPwm : Option Int) : fanController Unit :=
  { fan := fan, originalPwmEnabled := 2, originalPwmValue := 100, lastSetPwm := lastSetPwm,
    pwmValuesWithDistinctTarget := updateDistinctPwmValues quantizedMap,
    pwmMap := some quantizedMap, pidLoop := () }

/-- The simulated fan at PWM `pwm` in control mode `enable`, nothing written so far. -/
def simWorld (pwm enable : Int) : World SimFan :=
  { dev := { pwm := pwm, enable := enable }, writes := [] }

/-- A controller of a fan that has not been characterized yet: no PWM map and no
distinct values. -/
def unmappedController : fanController Unit :=
  { fan := exampleFan false 0 0 "hwmon0/fan1_input" 0,
    originalPwmEnabled := 2, originalPwmValue := 100, lastSetPwm := none,
    pwmValuesWithDistinctTarget := [], pwmMap := none, pidLoop := () }

/-- A never-stop fan with RPM sensor that stands still (average 0), with the range
`[240, 248]`; `pwm` is the PWM value read last. -/
def stalledFan (pwm : Int) : HwMonFan :=
  { Label := "fan1", Index := 1, RpmMovingAvg := F64.ofInt 0,
    Config := { ID := "fan1", NeverStop := true, Curve := "curve1",
                MinPwm := some 240, MaxPwm := some 248,
                RpmInput := "hwmon0/fan1_input", PwmOutput := "hwmon0/pwm1" },
    StartPwm := some 240, FanCurveData := none, Rpm := 0, Pwm := pwm }

/-- A PID loop without state that returns the difference of target and measurement. -/
def proportionalLoop (state : Unit) (target measured : F64) : F64 × Unit :=
  (F64.sub target measured, state)

/-- A standing never-stop fan on the quantized map with the range `[8, 255]`, last set
to 8. -/
def stalledQuantizedController : fanController Unit :=
  quantizedController (exampleFan true 8 8 "hwmon0/fan1_input" 0) (some 8)

/-- A fan handle as `AttachFanCurveData` leaves it: the boundaries derived from the curve
are 48 and 255, so that `min_pwm = start_pwm = 48`. -/
def attachedFan : HwMonFan :=
  (HwMonFan.AttachFanCurveData (fun _ => (48, 255))
    (exampleFan true 0 0 "hwmon0/fan1_input" 0) (some [(48, F64.ofInt 480)])).2

/-- The invariant of the fan handle in the words of the spec:
`0 ≤ MinPwmValue ≤ min_pwm ≤ start_pwm ≤ max_pwm ≤ MaxPwmValue`. -/
def pwmInvariant (fan : HwMonFan) : Prop :=
  0 ≤ MinPwmValue ∧ MinPwmValue ≤ fan.GetMinPwm ∧ fan.GetMinPwm ≤ fan.GetStartPwm
    ∧ fan.GetStartPwm ≤ fan.GetMaxPwm ∧ fan.GetMaxPwm ≤ MaxPwmValue

instance pwmInvariant.decidable (fan : HwMonFan) : Decidable (pwmInvariant fan) := by
  unfold pwmInvariant
  infer_instance

/-- The PWM map of the ideal linear fan of the spec's scenario 1: `M[i] = i` for `i` in
`0..255`, entries in ascending key order. -/
def identityMap : PwmMap :=
  (List.range 256).map (fun i => (Int.ofNat i, Int.ofNat i))

/-- A controller of `fan` whose PWM map is the identity map, with the distinct values
from a walk of that map in ascending key order and a PWM set before. -/
def identityController (fan : HwMonFan) : fanController Unit :=
  { fan := fan, originalPwmEnabled := 2, originalPwmValue := 100, lastSetPwm := some 48,
    pwmValuesWithDistinctTarget := updateDistinctPwmValues identityMap,
    pwmMap := some identityMap, pidLoop := () }

/-- The hardware of the ideal linear fan: the PWM file reports what was written. -/
def identitySysfs : Sysfs SimFan := simSysfs (fun x => x) tenfold true

/-- The never-stop fan with RPM sensor and `min_pwm = start_pwm = 48`, standing still, whose
PWM was read as 48. -/
def fanBeforeIncrement : HwMonFan :=
  { exampleFan true 48 48 "hwmon0/fan1_input" 0 with Pwm := 48 }

/-- The fan `fanBeforeIncrement` after a never-stop increment: `min_pwm = 49` and the
moving average seeded with 1. -/
def fanAfterIncrement : HwMonFan :=
  (fanBeforeIncrement.SetMinPwm 49).SetRpmAvg (F64.ofInt 1)

/-- The controllers `g` and `f` agree in what the next `calculateTargetPwm` depends on: the
configuration of the fan, its moving average, the PWM map and the distinct values. -/
def sameTuning {π : Type} (g f : fanController π) : Prop :=
  g.fan.Config = f.fan.Config ∧ g.fan.RpmMovingAvg = f.fan.RpmMovingAvg
    ∧ g.pwmMap = f.pwmMap ∧ g.pwmValuesWithDistinctTarget = f.pwmValuesWithDistinctTarget

instance sameTuning.decidable {π : Type} (g f : fanController π) : Decidable (sameTuning g f) := by
  unfold sameTuning
  infer_instance

/-- The device `sys` with a counter of the reads made on it: the second component of the
state grows by one with every `readFile`. -/
def countingReads {σ : Type} (sys : Sysfs σ) : Sysfs (σ × Nat) where
  readFile path s := ((sys.readFile path s.1).1, ((sys.readFile path s.1).2, s.2 + 1))
  writeFile path value s := ((sys.writeFile path value s.1).1, ((sys.writeFile path value s.1).2, s.2))
  fileExists path s := sys.fileExists path s.1

/-- A fan whose control mode file accepts every write and keeps its value: the hardware
refuses the mode. -/
def lockedModeSysfs : Sysfs SimFan where
  readFile path s :=
    match path with
    | Endpoint.pwmOutput => (FileRead.number s.pwm, s)
    | Endpoint.pwmEnable => (FileRead.number s.enable, s)
    | Endpoint.rpmInput => (FileRead.number (10 * s.pwm), s)
  writeFile path value s :=
    match path with
    | Endpoint.pwmOutput => (none, { s with pwm := value })
    | Endpoint.pwmEnable => (none, s)
    | Endpoint.rpmInput => (some (GoError.os 13), s)
  fileExists _ _ := true

end Fan2go

namespace Fan2go

set_option maxRecDepth 100000

/-! ## Bounds of the binary64 model -/

theorem bitLength_zero (s : Nat) : bitLength s 0 = 0 := by
  cases s <;> simp [bitLength]

theorem bitLength_spec (s n : Nat) (h : n ≤ s) :
    n < 2 ^ bitLength s n ∧ (0 < n → 1 ≤ bitLength s n ∧ 2 ^ (bitLength s n - 1) ≤ n) := by
  induction s generalizing n with
  | zero =>
    have hn : n = 0 := by omega
    subst hn
    simp [bitLength]
  | succ s ih =>
    by_cases hn : n = 0
    · subst hn
      simp [bitLength]
    · have hhalf : n / 2 ≤ s := by omega
      obtain ⟨h1, h2⟩ := ih (n / 2) hhalf
      simp only [bitLength, hn, if_false]
      refine ⟨?_, fun _ => ⟨by omega, ?_⟩⟩
      · rw [pow_succ]
        omega
      · simp only [Nat.add_sub_cancel]
        by_cases hz : n / 2 = 0
        · rw [hz, bitLength_zero]
          simp
          omega
        · obtain ⟨hb, hlow⟩ := h2 (by omega)
          have hpow : 2 ^ bitLength s (n / 2) = 2 * 2 ^ (bitLength s (n / 2) - 1) := by
            rw [← pow_succ']
            congr 1
            omega
          rw [hpow]
          omega

theorem ilog2_spec (n : Nat) (hn : 0 < n) : 2 ^ ilog2 n ≤ n ∧ n < 2 ^ (ilog2 n + 1) := by
  obtain ⟨h1, h2⟩ := bitLength_spec n n (le_refl n)
  obtain ⟨hb, hlow⟩ := h2 hn
  unfold ilog2
  refine ⟨hlow, ?_⟩
  have : bitLength n n - 1 + 1 = bitLength n n := by omega
  rw [this]
  exact h1

/-- With `a ≤ D * d` and `D < 2^52` the first shift of `F64.round` is not negative. -/
theorem round_shift_nonneg (a d D : Nat) (ha : 0 < a) (hd : 0 < d) (hle : a ≤ D * d)
    (hD : D < 2 ^ 52) : (0 : Int) ≤ 52 - ((ilog2 a : Int) - (ilog2 d : Int)) := by
  obtain ⟨ha1, -⟩ := ilog2_spec a ha
  obtain ⟨-, hd2⟩ := ilog2_spec d hd
  have h1 : 2 ^ ilog2 a < 2 ^ (52 + (ilog2 d + 1)) := by
    calc 2 ^ ilog2 a ≤ a := ha1
      _ ≤ D * d := hle
      _ < 2 ^ 52 * 2 ^ (ilog2 d + 1) := Nat.mul_lt_mul'' hD hd2
      _ = 2 ^ (52 + (ilog2 d + 1)) := (pow_add 2 52 (ilog2 d + 1)).symm
  have h2 : ilog2 a < 52 + (ilog2 d + 1) := (Nat.pow_lt_pow_iff_right (by norm_num)).mp h1
  omega

/-- The mantissa that `F64.round` computes from `a * 2^k / d` does not exceed `D * 2^k` when
`a / d` does not exceed the whole number `D`, and it is `D * 2^k` when `a / d` is `D`. -/
theorem mantissa_bounds (a d D k : Nat) (hd : 0 < d) (hle : a ≤ D * d) :
    (if d < 2 * (a * 2 ^ k % d) ∨ (2 * (a * 2 ^ k % d) = d ∧ a * 2 ^ k / d % 2 = 1) then
        a * 2 ^ k / d + 1 else a * 2 ^ k / d) ≤ D * 2 ^ k
      ∧ (a = D * d →
        (if d < 2 * (a * 2 ^ k % d) ∨ (2 * (a * 2 ^ k % d) = d ∧ a * 2 ^ k / d % 2 = 1) then
          a * 2 ^ k / d + 1 else a * 2 ^ k / d) = D * 2 ^ k) := by
  have hp : a * 2 ^ k ≤ d * (D * 2 ^ k) := by
    calc a * 2 ^ k ≤ D * d * 2 ^ k := Nat.mul_le_mul_right _ hle
      _ = d * (D * 2 ^ k) := by ring
  have hfl : a * 2 ^ k / d ≤ D * 2 ^ k := by
    apply Nat.div_le_of_le_mul
    exact hp
  have hsplit := Nat.div_add_mod (a * 2 ^ k) d
  constructor
  · split_ifs with hc
    · have hr : 0 < a * 2 ^ k % d := by
        rcases hc with h | h
        · omega
        · omega
      by_contra hcon
      have hge : D * 2 ^ k ≤ a * 2 ^ k / d := by omega
      have hmul : d * (D * 2 ^ k) ≤ d * (a * 2 ^ k / d) := Nat.mul_le_mul_left d hge
      omega
    · exact hfl
  · intro hexact
    have hpm : a * 2 ^ k = D * 2 ^ k * d := by
      rw [hexact]
      ring
    have hq : a * 2 ^ k / d = D * 2 ^ k := by
      rw [hpm]
      exact Nat.mul_div_cancel _ hd
    have hm : a * 2 ^ k % d = 0 := by
      rw [hpm]
      exact Nat.mul_mod_left _ _
    rw [hm, hq]
    have hno : ¬ (d < 2 * 0 ∨ (2 * 0 = d ∧ D * 2 ^ k % 2 = 1)) := by
      intro h
      rcases h with h | h
      · omega
      · omega
    rw [if_neg hno]


theorem F64.den_pos (x : F64) : 0 < x.den := by
  unfold F64.den
  split_ifs
  · exact Nat.one_pos
  · exact Nat.pos_pow_of_pos _ (by norm_num)

theorem F64.num_den_of_shift (m : Int) (k : Nat) :
    (F64.mk m (-(k : Int))).num = m ∧ (F64.mk m (-(k : Int))).den = 2 ^ k := by
  unfold F64.num F64.den
  by_cases hk : k = 0
  · subst hk
    simp
  · have hneg : ¬ (0 : Int) ≤ -(k : Int) := by omega
    simp only [hneg, if_false, neg_neg, Int.toNat_ofNat, and_self]

/-- Rounding `n / d` for `0 ≤ n / d ≤ D` with a whole number `D < 2^52`: the result is
not negative, does not exceed `D`, and is `D` when `n / d` is `D`. -/
theorem F64.round_bounds (n : Int) (d D : Nat) (hd : 0 < d) (hn : 0 ≤ n)
    (hle : n ≤ (D : Int) * d) (hD : D < 2 ^ 52) :
    0 ≤ (F64.round n d).num
      ∧ (F64.round n d).num ≤ (D : Int) * (F64.round n d).den
      ∧ (n = (D : Int) * d → (F64.round n d).num = (D : Int) * (F64.round n d).den) := by
  by_cases hz : n = 0
  · subst hz
    have hr : F64.round 0 d = ⟨0, 0⟩ := by simp [F64.round]
    rw [hr]
    simp only [F64.num, F64.den, le_refl, if_true, Int.toNat_zero, pow_zero, mul_one,
      Nat.cast_one, true_and]
    refine ⟨by omega, ?_⟩
    intro h0
    have hdpos : (0 : Int) < d := by exact_mod_cast hd
    have : (D : Int) = 0 := by
      rcases Int.mul_eq_zero.mp h0.symm with h | h
      · exact h
      · omega
    omega
  · have hpos : 0 < n := lt_of_le_of_ne hn (Ne.symm hz)
    obtain ⟨a, rfl⟩ : ∃ a : Nat, n = (a : Int) := ⟨n.toNat, (Int.toNat_of_nonneg hn).symm⟩
    have ha : 0 < a := by exact_mod_cast hpos
    have hle' : a ≤ D * d := by exact_mod_cast hle
    have hk0 := round_shift_nonneg a d D ha hd hle' hD
    obtain ⟨k0, hk0eq⟩ : ∃ k0 : Nat, (52 - ((ilog2 a : Int) - (ilog2 d : Int))) = (k0 : Int) :=
      ⟨_, (Int.toNat_of_nonneg hk0).symm⟩
    have hsign : (a : Int).sign = 1 := Int.sign_eq_one_of_pos hpos
    have key : ∀ k : Nat,
        (0 : Int) ≤ ((1 : Int) * ((if d < 2 * (a * 2 ^ k % d) ∨ (2 * (a * 2 ^ k % d) = d
            ∧ a * 2 ^ k / d % 2 = 1) then a * 2 ^ k / d + 1 else a * 2 ^ k / d : Nat) : Int))
          ∧ ((1 : Int) * ((if d < 2 * (a * 2 ^ k % d) ∨ (2 * (a * 2 ^ k % d) = d
            ∧ a * 2 ^ k / d % 2 = 1) then a * 2 ^ k / d + 1 else a * 2 ^ k / d : Nat) : Int))
              ≤ (D : Int) * ((2 ^ k : Nat) : Int)
          ∧ ((a : Int) = (D : Int) * d →
            ((1 : Int) * ((if d < 2 * (a * 2 ^ k % d) ∨ (2 * (a * 2 ^ k % d) = d
              ∧ a * 2 ^ k / d % 2 = 1) then a * 2 ^ k / d + 1 else a * 2 ^ k / d : Nat) : Int))
              = (D : Int) * ((2 ^ k : Nat) : Int)) := by
      intro k
      obtain ⟨h1, h2⟩ := mantissa_bounds a d D k hd hle'
      rw [one_mul]
      refine ⟨Int.natCast_nonneg _, by exact_mod_cast h1, ?_⟩
      intro hex
      have hex' : a = D * d := by exact_mod_cast hex
      exact_mod_cast h2 hex'
    have hround : ∃ k : Nat, F64.round (a : Int) d
        = ⟨(1 : Int) * ((if d < 2 * (a * 2 ^ k % d) ∨ (2 * (a * 2 ^ k % d) = d
            ∧ a * 2 ^ k / d % 2 = 1) then a * 2 ^ k / d + 1 else a * 2 ^ k / d : Nat) : Int),
          -(k : Int)⟩ := by
      have hk0nn : (0 : Int) ≤ (k0 : Int) := Int.natCast_nonneg k0
      simp only [F64.round, hz, if_false, Int.natAbs_ofNat, hk0eq, hsign, hk0nn, if_true,
        Int.toNat_ofNat]
      by_cases hlt : a * 2 ^ k0 / d < 2 ^ 52
      · refine ⟨k0 + 1, ?_⟩
        have hk1 : (0 : Int) ≤ (k0 : Int) + 1 := by omega
        have ht : ((k0 : Int) + 1).toNat = k0 + 1 := by omega
        simp only [hlt, if_true, hk1, ht, Nat.cast_add, Nat.cast_one]
      · refine ⟨k0, ?_⟩
        simp only [hlt, if_false, hk0nn, if_true, Int.toNat_ofNat]
    obtain ⟨k, hk⟩ := hround
    obtain ⟨hnum, hden⟩ := F64.num_den_of_shift
      ((1 : Int) * ((if d < 2 * (a * 2 ^ k % d) ∨ (2 * (a * 2 ^ k % d) = d
            ∧ a * 2 ^ k / d % 2 = 1) then a * 2 ^ k / d + 1 else a * 2 ^ k / d : Nat) : Int)) k
    rw [hk, hnum, hden]
    exact key k


/-- The conversion `float64(x)` is exact for `0 ≤ x < 2^52`. -/
theorem F64.ofInt_exact (x : Int) (h0 : 0 ≤ x) (h1 : x < 2 ^ 52) :
    (F64.ofInt x).num = x * (F64.ofInt x).den := by
  obtain ⟨a, rfl⟩ : ∃ a : Nat, x = (a : Int) := ⟨x.toNat, (Int.toNat_of_nonneg h0).symm⟩
  have ha : a < 2 ^ 52 := by exact_mod_cast h1
  have h := F64.round_bounds (a : Int) 1 a Nat.one_pos h0 (by simp) ha
  exact h.2.2 (by simp)

/-- The rescaling step of `calculateTargetPwm` in `float64`: for a target `t` in `[0, 255]`
and a range `0 ≤ lo ≤ hi < 2^52` the offset added to `lo` lies in `[0, hi - lo]`. -/
theorem rescale_bounds (t lo hi : Int) (ht0 : 0 ≤ t) (ht1 : t ≤ 255) (hlo : 0 ≤ lo)
    (hle : lo ≤ hi) (hhi : hi < 2 ^ 52) :
    0 ≤ F64.toInt (F64.mul (F64.div (F64.ofInt t) (F64.ofInt 255))
          (F64.sub (F64.ofInt hi) (F64.ofInt lo)))
      ∧ F64.toInt (F64.mul (F64.div (F64.ofInt t) (F64.ofInt 255))
          (F64.sub (F64.ofInt hi) (F64.ofInt lo))) ≤ hi - lo := by
  -- the operands are exact
  have hX := F64.ofInt_exact t ht0 (by omega)
  have hC := F64.ofInt_exact 255 (by norm_num) (by norm_num)
  have hH := F64.ofInt_exact hi (by omega) hhi
  have hL := F64.ofInt_exact lo hlo (by omega)
  have hXd : (0 : Int) < (F64.ofInt t).den := by exact_mod_cast F64.den_pos _
  have hCd : (0 : Int) < (F64.ofInt 255).den := by exact_mod_cast F64.den_pos _
  have hHd : (0 : Int) < (F64.ofInt hi).den := by exact_mod_cast F64.den_pos _
  have hLd : (0 : Int) < (F64.ofInt lo).den := by exact_mod_cast F64.den_pos _
  have hCpos : 0 < (F64.ofInt 255).num := by
    rw [hC]
    positivity
  -- the quotient lies in [0, 1]
  have hquot := F64.round_bounds
    ((F64.ofInt t).num * (F64.ofInt 255).den * (F64.ofInt 255).num.sign)
    ((F64.ofInt t).den * (F64.ofInt 255).num.natAbs) 1
    (Nat.mul_pos (F64.den_pos _) (Int.natAbs_pos.mpr hCpos.ne'))
    (by
      rw [Int.sign_eq_one_of_pos hCpos, mul_one, hX]
      positivity)
    (by
      rw [Int.sign_eq_one_of_pos hCpos, mul_one, hX]
      push_cast
      rw [abs_of_pos hCpos, hC]
      nlinarith [mul_pos hXd hCd])
    (by norm_num)
  obtain ⟨hq0, hq1, -⟩ := hquot
  change 0 ≤ (F64.div (F64.ofInt t) (F64.ofInt 255)).num at hq0
  change (F64.div (F64.ofInt t) (F64.ofInt 255)).num
    ≤ ((1 : Nat) : Int) * (F64.div (F64.ofInt t) (F64.ofInt 255)).den at hq1
  -- the difference is exact
  obtain ⟨D, hDeq⟩ : ∃ D : Nat, hi - lo = (D : Int) :=
    ⟨(hi - lo).toNat, (Int.toNat_of_nonneg (by omega)).symm⟩
  have hDlt : D < 2 ^ 52 := by
    have : (D : Int) < 2 ^ 52 := by omega
    exact_mod_cast this
  have hdiffn : (F64.ofInt hi).num * (F64.ofInt lo).den - (F64.ofInt lo).num * (F64.ofInt hi).den
      = (D : Int) * (((F64.ofInt hi).den * (F64.ofInt lo).den : Nat) : Int) := by
    rw [hH, hL, ← hDeq]
    push_cast
    ring
  have hdiff := F64.round_bounds
    ((F64.ofInt hi).num * (F64.ofInt lo).den - (F64.ofInt lo).num * (F64.ofInt hi).den)
    ((F64.ofInt hi).den * (F64.ofInt lo).den) D
    (Nat.mul_pos (F64.den_pos _) (F64.den_pos _))
    (by
      rw [hdiffn]
      positivity)
    (le_of_eq hdiffn) hDlt
  obtain ⟨hd0, -, hdex⟩ := hdiff
  have hdeq := hdex hdiffn
  change 0 ≤ (F64.sub (F64.ofInt hi) (F64.ofInt lo)).num at hd0
  change (F64.sub (F64.ofInt hi) (F64.ofInt lo)).num
    = (D : Int) * (F64.sub (F64.ofInt hi) (F64.ofInt lo)).den at hdeq
  -- the product lies in [0, D]
  generalize F64.div (F64.ofInt t) (F64.ofInt 255) = a at hq0 hq1 ⊢
  generalize F64.sub (F64.ofInt hi) (F64.ofInt lo) = b at hd0 hdeq ⊢
  have had : (0 : Int) < a.den := by exact_mod_cast F64.den_pos _
  have hbd : (0 : Int) < b.den := by exact_mod_cast F64.den_pos _
  have hDnn : (0 : Int) ≤ (D : Int) := Int.natCast_nonneg D
  have hprod := F64.round_bounds (a.num * b.num) (a.den * b.den) D
    (Nat.mul_pos (F64.den_pos _) (F64.den_pos _))
    (mul_nonneg hq0 hd0)
    (by
      rw [hdeq]
      push_cast
      have h1 : a.num * ((D : Int) * b.den) ≤ a.den * ((D : Int) * b.den) := by
        apply mul_le_mul_of_nonneg_right
        · simpa using hq1
        · positivity
      calc a.num * ((D : Int) * b.den) ≤ a.den * ((D : Int) * b.den) := h1
        _ = (D : Int) * ((a.den : Int) * b.den) := by ring)
    hDlt
  obtain ⟨hp0, hp1, -⟩ := hprod
  change 0 ≤ (F64.mul a b).num at hp0
  change (F64.mul a b).num ≤ (D : Int) * (F64.mul a b).den at hp1
  generalize F64.mul a b = r at hp0 hp1 ⊢
  have hrd : (0 : Int) < r.den := by exact_mod_cast F64.den_pos _
  unfold F64.toInt
  rw [Int.tdiv_eq_ediv hp0 hrd.le, hDeq]
  exact ⟨Int.ediv_nonneg hp0 hrd.le, Int.ediv_le_of_le_mul hrd hp1⟩


/-! ## The closest distinct value -/

theorem nearest_fold_spec (target : Int) (rest : List Int) (init : Int) :
    (rest.foldl (fun best y =>
          if (y - target).natAbs < (best - target).natAbs then y else best) init = init
        ∨ rest.foldl (fun best y =>
          if (y - target).natAbs < (best - target).natAbs then y else best) init ∈ rest)
      ∧ (rest.foldl (fun best y =>
          if (y - target).natAbs < (best - target).natAbs then y else best) init
            - target).natAbs ≤ (init - target).natAbs
      ∧ ∀ y ∈ rest, (rest.foldl (fun best y =>
          if (y - target).natAbs < (best - target).natAbs then y else best) init
            - target).natAbs ≤ (y - target).natAbs := by
  induction rest generalizing init with
  | nil => simp
  | cons z rest ih =>
    simp only [List.foldl_cons, List.mem_cons]
    by_cases hz : (z - target).natAbs < (init - target).natAbs
    · simp only [hz, if_true]
      obtain ⟨h1, h2, h3⟩ := ih z
      refine ⟨?_, by omega, ?_⟩
      · rcases h1 with h | h
        · exact Or.inr (Or.inl h)
        · exact Or.inr (Or.inr h)
      · intro y hy
        rcases hy with hy | hy
        · subst hy
          exact h2
        · exact h3 y hy
    · simp only [hz, if_false]
      obtain ⟨h1, h2, h3⟩ := ih init
      refine ⟨?_, h2, ?_⟩
      · rcases h1 with h | h
        · exact Or.inl h
        · exact Or.inr (Or.inr h)
      · intro y hy
        rcases hy with hy | hy
        · subst hy
          omega
        · exact h3 y hy

/-- The spec-modelled `nearest` returns a member of a non-empty list that is at least as
close to the target as every member. -/
theorem nearest_spec (target : Int) (options : List Int) (hne : options ≠ []) :
    nearest target options ∈ options
      ∧ ∀ x ∈ options, (nearest target options - target).natAbs ≤ (x - target).natAbs := by
  cases options with
  | nil => exact absurd rfl hne
  | cons x rest =>
    obtain ⟨h1, h2, h3⟩ := nearest_fold_spec target rest x
    simp only [nearest, List.mem_cons]
    refine ⟨?_, ?_⟩
    · rcases h1 with h | h
      · exact Or.inl h
      · exact Or.inr h
    · intro y hy
      rcases hy with hy | hy
      · subst hy
        exact h2
      · exact h3 y hy

/-- A closest member of the options lies in the range when the target does, provided each
end of the range is an option itself or no option lies beyond it. -/
theorem closest_in_range (c r lo hi : Int) (options : List Int) (hmem : c ∈ options)
    (hclosest : ∀ x ∈ options, (c - r).natAbs ≤ (x - r).natAbs)
    (hlo : lo ∈ options ∨ ∀ x ∈ options, lo ≤ x)
    (hhi : hi ∈ options ∨ ∀ x ∈ options, x ≤ hi) (h1 : lo ≤ r) (h2 : r ≤ hi) :
    lo ≤ c ∧ c ≤ hi := by
  constructor
  · rcases hlo with h | h
    · have ha := hclosest lo h
      omega
    · exact h c hmem
  · rcases hhi with h | h
    · have hb := hclosest hi h
      omega
    · exact h c hmem

/-! ## Lemmas on the fan handle -/

theorem GetPwm_fan {σ : Type} (sys : Sysfs σ) (fan : HwMonFan) (w : World σ) :
    ∃ p, (fan.GetPwm sys w).2.1 = { fan with Pwm := p } := by
  unfold HwMonFan.GetPwm ReadIntFromFile
  rcases h : sys.readFile Endpoint.pwmOutput w.dev with ⟨r, d⟩
  cases r <;> simp
  · exact ⟨fan.Pwm, rfl⟩
  · exact ⟨fan.Pwm, rfl⟩

theorem thirdPartyCheck_fan {σ π : Type} (sys : Sysfs σ) (f : fanController π) (w : World σ) :
    ∃ p, (thirdPartyCheck sys f w).1 = { f.fan with Pwm := p } := by
  unfold thirdPartyCheck
  split_ifs
  · exact GetPwm_fan sys f.fan w
  · exact ⟨f.fan.Pwm, rfl⟩

/-- The three outcomes of `calculateTargetPwm` after a successful curve evaluation, in
terms of the quantized target `q` and of the fan `fan` left by the third-party check. -/
theorem calculateTargetPwm_cases {σ π : Type} (sys : Sysfs σ)
    (FindClosest : Int → List Int → Int) (curveValue : Int) (f : fanController π)
    (w : World σ) :
    ∃ p : Int,
      calculateTargetPwm sys FindClosest (curveValue, none) f w =
        if (decide (f.fan.Config.RpmInput.length > 0) = true ∧ f.fan.Config.NeverStop = true
            ∧ f.lastSetPwm ≠ none) ∧ F64.le f.fan.RpmMovingAvg (F64.ofInt 0) then
          if quantizedTarget FindClosest f curveValue ≥ f.fan.GetMaxPwm then
            some (-1, { f with fan := { f.fan with Pwm := p } }, (thirdPartyCheck sys f w).2)
          else
            some (quantizedTarget FindClosest f curveValue + 1,
              { f with fan := HwMonFan.SetRpmAvg (HwMonFan.SetMinPwm { f.fan with Pwm := p } (f.fan.GetMinPwm + 1)) (F64.ofInt 1) },
              (thirdPartyCheck sys f w).2)
        else
          some (quantizedTarget FindClosest f curveValue,
            { f with fan := { f.fan with Pwm := p } }, (thirdPartyCheck sys f w).2) := by
  obtain ⟨p, hp⟩ := thirdPartyCheck_fan sys f w
  refine ⟨p, ?_⟩
  simp only [calculateTargetPwm, hp, HwMonFan.Supports, HwMonFan.ShouldNeverStop,
    HwMonFan.GetRpmAvg, HwMonFan.GetMinPwm, HwMonFan.GetMaxPwm, or_false]
  split_ifs <;> simp_all

/-! ## C1: bounds of the target -/

/-- C1 (as stated, refuted): on the quantized fan with a never-stop minimum of 3 and a
turning fan, the curve value 0 is rescaled to 3, snapped to the representative 0 and
returned as 0, which is neither -1 nor within `[GetMinPwm(), GetMaxPwm()] = [3, 255]`. -/
theorem C1_counterexample_quantized_below_min :
    ∃ t f' w',
      calculateTargetPwm (quantizedSysfs true) nearest (0, none)
          (quantizedController (exampleFan true 3 3 "hwmon0/fan1_input" 800) (some 0))
          (simWorld 0 1) = some (t, f', w')
        ∧ t = 0 ∧ f'.fan.GetMinPwm = 3 ∧ f'.fan.GetMaxPwm = 255
        ∧ ¬ (t = -1 ∨ (f'.fan.GetMinPwm ≤ t ∧ t ≤ f'.fan.GetMaxPwm)) := by
  obtain ⟨p, h⟩ := calculateTargetPwm_cases (quantizedSysfs true) nearest 0
    (quantizedController (exampleFan true 3 3 "hwmon0/fan1_input" 800) (some 0)) (simWorld 0 1)
  rw [if_neg (by decide!)] at h
  have hq : quantizedTarget nearest
      (quantizedController (exampleFan true 3 3 "hwmon0/fan1_input" 800) (some 0)) 0 = 0 := by
    decide!
  rw [hq] at h
  refine ⟨_, _, _, h, rfl, ?_, ?_, ?_⟩
  · rfl
  · rfl
  · simp [HwMonFan.GetMinPwm, HwMonFan.ShouldNeverStop, quantizedController, exampleFan]

/-- When the quantized target lies within `[GetMinPwm(), GetMaxPwm()]` of the fan at entry,
the value returned by `calculateTargetPwm` is `-1` or lies within the range of the fan as it
is when the call returns: the never-stop step adds 1 on both sides. -/
theorem calculateTargetPwm_bounds_of_quantizedTarget {σ π : Type} (sys : Sysfs σ)
    (FindClosest : Int → List Int → Int) (curveValue : Int) (f : fanController π)
    (w : World σ)
    (hmin : f.fan.GetMinPwm ≤ quantizedTarget FindClosest f curveValue)
    (hmax : quantizedTarget FindClosest f curveValue ≤ f.fan.GetMaxPwm) :
    ∃ t f' w',
      calculateTargetPwm sys FindClosest (curveValue, none) f w = some (t, f', w')
        ∧ (t = -1 ∨ (f'.fan.GetMinPwm ≤ t ∧ t ≤ f'.fan.GetMaxPwm)) := by
  obtain ⟨p, h⟩ := calculateTargetPwm_cases sys FindClosest curveValue f w
  rw [h]
  split_ifs with hc hm
  · exact ⟨_, _, _, rfl, Or.inl rfl⟩
  · refine ⟨_, _, _, rfl, Or.inr ?_⟩
    have hns : f.fan.Config.NeverStop = true := hc.1.2.1
    simp only [HwMonFan.GetMinPwm, HwMonFan.GetMaxPwm, HwMonFan.SetMinPwm, HwMonFan.SetRpmAvg,
      HwMonFan.ShouldNeverStop, hns, if_true] at hmin hmax hm ⊢
    constructor <;> omega
  · exact ⟨_, _, _, rfl, Or.inr ⟨hmin, hmax⟩⟩

theorem quantizedTarget_eq {π : Type} (FindClosest : Int → List Int → Int)
    (f : fanController π) (curveValue : Int) :
    quantizedTarget FindClosest f curveValue
      = mapIndex f.pwmMap (FindClosest (rescaledTarget f curveValue)
          f.pwmValuesWithDistinctTarget) := rfl

/-- Clamp and rescaling: for a fan with `0 ≤ min_pwm ≤ max_pwm ≤ 255` and every curve value
the rescaled target lies within `[min_pwm, max_pwm]`. -/
theorem rescaledTarget_bounds {π : Type} (f : fanController π) (curveValue : Int)
    (h0 : 0 ≤ f.fan.GetMinPwm) (hle : f.fan.GetMinPwm ≤ f.fan.GetMaxPwm)
    (h255 : f.fan.GetMaxPwm ≤ MaxPwmValue) :
    f.fan.GetMinPwm ≤ rescaledTarget f curveValue
      ∧ rescaledTarget f curveValue ≤ f.fan.GetMaxPwm := by
  have hclamp : ∀ t : Int, 0 ≤ t → t ≤ 255 →
      f.fan.GetMinPwm ≤ f.fan.GetMinPwm + F64.toInt (F64.mul
          (F64.div (F64.ofInt t) (F64.ofInt 255))
          (F64.sub (F64.ofInt f.fan.GetMaxPwm) (F64.ofInt f.fan.GetMinPwm)))
        ∧ f.fan.GetMinPwm + F64.toInt (F64.mul
          (F64.div (F64.ofInt t) (F64.ofInt 255))
          (F64.sub (F64.ofInt f.fan.GetMaxPwm) (F64.ofInt f.fan.GetMinPwm)))
          ≤ f.fan.GetMaxPwm := by
    intro t ht0 ht1
    have hmax52 : f.fan.GetMaxPwm < 2 ^ 52 := by
      have : f.fan.GetMaxPwm ≤ 255 := h255
      omega
    obtain ⟨hb0, hb1⟩ := rescale_bounds t f.fan.GetMinPwm f.fan.GetMaxPwm ht0 ht1 h0 hle hmax52
    constructor <;> omega
  simp only [rescaledTarget, MaxPwmValue, MinPwmValue]
  split_ifs with hhigh hlow
  · exact hclamp 255 (by norm_num) (by norm_num)
  · exact hclamp 0 (by norm_num) (by norm_num)
  · exact hclamp curveValue (by omega) (by omega)

/-- The quantized target lies within the range of the fan when each end of the range is a
member of the distinct-target set or has no member beyond it, `FindClosest` returns a
closest member, and the PWM map keeps the members of the range in the range. -/
theorem quantizedTarget_bounds {π : Type} (FindClosest : Int → List Int → Int)
    (f : fanController π) (curveValue : Int)
    (h0 : 0 ≤ f.fan.GetMinPwm) (hle : f.fan.GetMinPwm ≤ f.fan.GetMaxPwm)
    (h255 : f.fan.GetMaxPwm ≤ MaxPwmValue)
    (hclosest : ∀ target : Int,
      FindClosest target f.pwmValuesWithDistinctTarget ∈ f.pwmValuesWithDistinctTarget
        ∧ ∀ x ∈ f.pwmValuesWithDistinctTarget,
          (FindClosest target f.pwmValuesWithDistinctTarget - target).natAbs
            ≤ (x - target).natAbs)
    (hminD : f.fan.GetMinPwm ∈ f.pwmValuesWithDistinctTarget
      ∨ ∀ x ∈ f.pwmValuesWithDistinctTarget, f.fan.GetMinPwm ≤ x)
    (hmaxD : f.fan.GetMaxPwm ∈ f.pwmValuesWithDistinctTarget
      ∨ ∀ x ∈ f.pwmValuesWithDistinctTarget, x ≤ f.fan.GetMaxPwm)
    (hmap : ∀ c ∈ f.pwmValuesWithDistinctTarget, f.fan.GetMinPwm ≤ c → c ≤ f.fan.GetMaxPwm →
      f.fan.GetMinPwm ≤ mapIndex f.pwmMap c ∧ mapIndex f.pwmMap c ≤ f.fan.GetMaxPwm) :
    f.fan.GetMinPwm ≤ quantizedTarget FindClosest f curveValue
      ∧ quantizedTarget FindClosest f curveValue ≤ f.fan.GetMaxPwm := by
  obtain ⟨hr0, hr1⟩ := rescaledTarget_bounds f curveValue h0 hle h255
  obtain ⟨hmem, hnear⟩ := hclosest (rescaledTarget f curveValue)
  obtain ⟨hc0, hc1⟩ := closest_in_range _ _ _ _ _ hmem hnear hminD hmaxD hr0 hr1
  rw [quantizedTarget_eq]
  exact hmap _ hmem hc0 hc1

/-- C1 (amended): for a fan with `0 ≤ min_pwm ≤ max_pwm ≤ 255` and every curve value, the
target after clamp and rescaling lies within `[min_pwm, max_pwm]`; and when `min_pwm` is a
member of the distinct-target set or no member lies below it, `max_pwm` is a member or no
member lies above it, `FindClosest` returns a member of that set closest to its target,
and the PWM map sends every member within `[min_pwm, max_pwm]` to a value within
`[min_pwm, max_pwm]` (as it does when the members read back as themselves), the value `t`
returned by `calculateTargetPwm` is `-1` or satisfies `GetMinPwm() ≤ t ≤ GetMaxPwm()` for
the fan as it is when the call returns. -/
theorem C1_calculateTargetPwm_within_bounds {σ π : Type} (sys : Sysfs σ)
    (FindClosest : Int → List Int → Int) (curveValue : Int) (f : fanController π)
    (w : World σ)
    (h0 : 0 ≤ f.fan.GetMinPwm) (hle : f.fan.GetMinPwm ≤ f.fan.GetMaxPwm)
    (h255 : f.fan.GetMaxPwm ≤ MaxPwmValue)
    (hclosest : ∀ target : Int,
      FindClosest target f.pwmValuesWithDistinctTarget ∈ f.pwmValuesWithDistinctTarget
        ∧ ∀ x ∈ f.pwmValuesWithDistinctTarget,
          (FindClosest target f.pwmValuesWithDistinctTarget - target).natAbs
            ≤ (x - target).natAbs)
    (hminD : f.fan.GetMinPwm ∈ f.pwmValuesWithDistinctTarget
      ∨ ∀ x ∈ f.pwmValuesWithDistinctTarget, f.fan.GetMinPwm ≤ x)
    (hmaxD : f.fan.GetMaxPwm ∈ f.pwmValuesWithDistinctTarget
      ∨ ∀ x ∈ f.pwmValuesWithDistinctTarget, x ≤ f.fan.GetMaxPwm)
    (hmap : ∀ c ∈ f.pwmValuesWithDistinctTarget, f.fan.GetMinPwm ≤ c → c ≤ f.fan.GetMaxPwm →
      f.fan.GetMinPwm ≤ mapIndex f.pwmMap c ∧ mapIndex f.pwmMap c ≤ f.fan.GetMaxPwm) :
    (f.fan.GetMinPwm ≤ rescaledTarget f curveValue
        ∧ rescaledTarget f curveValue ≤ f.fan.GetMaxPwm)
      ∧ ∃ t f' w',
        calculateTargetPwm sys FindClosest (curveValue, none) f w = some (t, f', w')
          ∧ (t = -1 ∨ (f'.fan.GetMinPwm ≤ t ∧ t ≤ f'.fan.GetMaxPwm)) := by
  obtain ⟨hq0, hq1⟩ := quantizedTarget_bounds FindClosest f curveValue h0 hle h255 hclosest
    hminD hmaxD hmap
  refine ⟨rescaledTarget_bounds f curveValue h0 hle h255, ?_⟩
  exact calculateTargetPwm_bounds_of_quantizedTarget sys FindClosest curveValue f w hq0 hq1

/-- Witness of `C1_calculateTargetPwm_within_bounds`: the standing never-stop fan on the
quantized map with the range `[8, 255]` and the curve value 200; 8 is a member of the
distinct-target set and no member lies above 255; the target is rescaled to 201, snapped to
200 and returned as 201 with `min_pwm` raised to 9. -/
theorem C1_calculateTargetPwm_within_bounds_witness :
    (0 ≤ stalledQuantizedController.fan.GetMinPwm
      ∧ stalledQuantizedController.fan.GetMinPwm ≤ stalledQuantizedController.fan.GetMaxPwm
      ∧ stalledQuantizedController.fan.GetMaxPwm ≤ MaxPwmValue
      ∧ (∀ target : Int,
        nearest target stalledQuantizedController.pwmValuesWithDistinctTarget
            ∈ stalledQuantizedController.pwmValuesWithDistinctTarget
          ∧ ∀ x ∈ stalledQuantizedController.pwmValuesWithDistinctTarget,
            (nearest target stalledQuantizedController.pwmValuesWithDistinctTarget
                - target).natAbs ≤ (x - target).natAbs)
      ∧ (stalledQuantizedController.fan.GetMinPwm
            ∈ stalledQuantizedController.pwmValuesWithDistinctTarget
          ∨ ∀ x ∈ stalledQuantizedController.pwmValuesWithDistinctTarget,
            stalledQuantizedController.fan.GetMinPwm ≤ x)
      ∧ (stalledQuantizedController.fan.GetMaxPwm
            ∈ stalledQuantizedController.pwmValuesWithDistinctTarget
          ∨ ∀ x ∈ stalledQuantizedController.pwmValuesWithDistinctTarget,
            x ≤ stalledQuantizedController.fan.GetMaxPwm)
      ∧ (∀ c ∈ stalledQuantizedController.pwmValuesWithDistinctTarget,
          stalledQuantizedController.fan.GetMinPwm ≤ c →
          c ≤ stalledQuantizedController.fan.GetMaxPwm →
          stalledQuantizedController.fan.GetMinPwm
              ≤ mapIndex stalledQuantizedController.pwmMap c
            ∧ mapIndex stalledQuantizedController.pwmMap c
              ≤ stalledQuantizedController.fan.GetMaxPwm))
    ∧ ((stalledQuantizedController.fan.GetMinPwm ≤ rescaledTarget stalledQuantizedController 200
        ∧ rescaledTarget stalledQuantizedController 200
          ≤ stalledQuantizedController.fan.GetMaxPwm)
      ∧ ∃ t f' w',
        calculateTargetPwm (quantizedSysfs true) nearest (200, none) stalledQuantizedController
            (simWorld 8 1) = some (t, f', w')
          ∧ (t = -1 ∨ (f'.fan.GetMinPwm ≤ t ∧ t ≤ f'.fan.GetMaxPwm))) :=
  ⟨⟨by decide!, by decide!, by decide!,
      fun target => nearest_spec target _ (by decide!),
      by decide!, by decide!, by decide!⟩,
    C1_calculateTargetPwm_within_bounds (quantizedSysfs true) nearest 200
      stalledQuantizedController (simWorld 8 1) (by decide!) (by decide!) (by decide!)
      (fun target => nearest_spec target _ (by decide!))
      (by decide!) (by decide!) (by decide!)⟩

/-- The run of the witness: rescaled target 201, quantized target 200, returned value 201,
`min_pwm` 9. -/
theorem calculateTargetPwm_example_stalled_quantized :
    rescaledTarget stalledQuantizedController 200 = 201
      ∧ quantizedTarget nearest stalledQuantizedController 200 = 200
      ∧ (calculateTargetPwm (quantizedSysfs true) nearest (200, none)
          stalledQuantizedController (simWorld 8 1)).map (fun r => r.1) = some 201
      ∧ (calculateTargetPwm (quantizedSysfs true) nearest (200, none)
          stalledQuantizedController (simWorld 8 1)).map (fun r => r.2.1.fan.GetMinPwm)
        = some 9 := by
  refine ⟨by decide!, by decide!, by decide!, by decide!⟩

theorem identityMap_distinct :
    updateDistinctPwmValues identityMap = (List.range 256).map Int.ofNat := by
  decide!

theorem lookup_diagonal (l : List Nat) (k : Nat) (hk : k ∈ l) :
    List.lookup (Int.ofNat k) (l.map (fun i => (Int.ofNat i, Int.ofNat i)))
      = some (Int.ofNat k) := by
  induction l with
  | nil => simp at hk
  | cons a rest ih =>
    rw [List.map_cons, List.lookup_cons]
    by_cases hka : k = a
    · subst hka
      simp
    · have hb : (Int.ofNat k == Int.ofNat a) = false := by
        simpa using hka
      rw [hb]
      rcases List.mem_cons.mp hk with h | h
      · exact absurd h hka
      · exact ih h

theorem identityMap_fixed :
    ∀ c ∈ updateDistinctPwmValues identityMap, mapIndex (some identityMap) c = c := by
  intro c hc
  rw [identityMap_distinct] at hc
  obtain ⟨i, hi, rfl⟩ := List.mem_map.mp hc
  simp only [mapIndex, PwmMap.get, identityMap, lookup_diagonal _ i hi, Option.getD_some]

theorem mem_identityMap_distinct (x : Int) (h0 : 0 ≤ x) (h1 : x ≤ 255) :
    x ∈ updateDistinctPwmValues identityMap := by
  rw [identityMap_distinct]
  simp only [List.mem_map, List.mem_range]
  refine ⟨x.toNat, by omega, ?_⟩
  simp only [Int.ofNat_eq_coe]
  omega

/-- On the identity PWM map the bound of C1 holds as the claim states it, for every fan with
`0 ≤ min_pwm ≤ max_pwm ≤ 255`, every curve value and every `FindClosest` that returns a
closest member of the distinct-target set. -/
theorem calculateTargetPwm_within_bounds_identity {σ π : Type} (sys : Sysfs σ)
    (FindClosest : Int → List Int → Int) (curveValue : Int) (f : fanController π)
    (w : World σ)
    (hmapid : f.pwmMap = some identityMap)
    (hD : f.pwmValuesWithDistinctTarget = updateDistinctPwmValues identityMap)
    (h0 : 0 ≤ f.fan.GetMinPwm) (hle : f.fan.GetMinPwm ≤ f.fan.GetMaxPwm)
    (h255 : f.fan.GetMaxPwm ≤ MaxPwmValue)
    (hclosest : ∀ target : Int,
      FindClosest target f.pwmValuesWithDistinctTarget ∈ f.pwmValuesWithDistinctTarget
        ∧ ∀ x ∈ f.pwmValuesWithDistinctTarget,
          (FindClosest target f.pwmValuesWithDistinctTarget - target).natAbs
            ≤ (x - target).natAbs) :
    ∃ t f' w',
      calculateTargetPwm sys FindClosest (curveValue, none) f w = some (t, f', w')
        ∧ (t = -1 ∨ (f'.fan.GetMinPwm ≤ t ∧ t ≤ f'.fan.GetMaxPwm)) := by
  have h255' : f.fan.GetMaxPwm ≤ 255 := h255
  have hminD : f.fan.GetMinPwm ∈ f.pwmValuesWithDistinctTarget := by
    rw [hD]
    exact mem_identityMap_distinct _ h0 (by omega)
  have hmaxD : f.fan.GetMaxPwm ∈ f.pwmValuesWithDistinctTarget := by
    rw [hD]
    exact mem_identityMap_distinct _ (by omega) h255'
  have hmap : ∀ c ∈ f.pwmValuesWithDistinctTarget, f.fan.GetMinPwm ≤ c →
      c ≤ f.fan.GetMaxPwm →
      f.fan.GetMinPwm ≤ mapIndex f.pwmMap c ∧ mapIndex f.pwmMap c ≤ f.fan.GetMaxPwm := by
    intro c hc hc0 hc1
    rw [hD] at hc
    rw [hmapid, identityMap_fixed c hc]
    exact ⟨hc0, hc1⟩
  obtain ⟨hq0, hq1⟩ := quantizedTarget_bounds FindClosest f curveValue h0 hle h255 hclosest
    (Or.inl hminD) (Or.inl hmaxD) hmap
  exact calculateTargetPwm_bounds_of_quantizedTarget sys FindClosest curveValue f w hq0 hq1

/-! ## C2: `updateDistinctPwmValues` and the order of iteration -/

/-- C2 (evaluation at the failing input): the visit that starts with key 8 is an iteration
order of the quantized map; on it `updateDistinctPwmValues` keeps the 33 keys
`0, 8, 9, 16, 24, …, 248`, among them the consecutive 8 and 9 with `M[8] = M[9]`, whereas
on the ascending visit it keeps the 32 representatives `0, 8, …, 248`. -/
theorem C2_updateDistinctPwmValues_iteration_order :
    quantizedMapEightFirst.Perm quantizedMap
      ∧ updateDistinctPwmValues quantizedMap = (List.range 32).map (fun i => Int.ofNat (8 * i))
      ∧ updateDistinctPwmValues quantizedMapEightFirst
          = 0 :: 8 :: 9 :: (List.range 30).map (fun i => Int.ofNat (8 * i + 16))
      ∧ (updateDistinctPwmValues quantizedMapEightFirst).length = 33
      ∧ PwmMap.get quantizedMap 8 = PwmMap.get quantizedMap 9 := by
  refine ⟨?_, by decide!, by decide!, by decide!, by decide!⟩
  have hsplit : quantizedMap
      = quantizedMap.take 8 ++ ((quantizedMap.drop 8).take 1 ++ quantizedMap.drop 9) := by
    decide!
  have hperm : quantizedMapEightFirst.Perm
      (quantizedMap.take 8 ++ ((quantizedMap.drop 8).take 1 ++ quantizedMap.drop 9)) := by
    unfold quantizedMapEightFirst
    exact List.perm_append_comm_assoc _ _ _
  exact hsplit ▸ hperm

/-- The sentinel `-1` of `lastDistinctOutput` is also a possible observed value: on a map
whose first two outputs are `-1` the key 1 is kept after the key 0 although both outputs
are equal, also on the ascending visit. -/
theorem updateDistinctPwmValues_sentinel_collision :
    updateDistinctPwmValues [(0, -1), (1, -1), (2, 5), (3, 5)] = [0, 1, 2] := by
  decide

/-! ## C3: the keys of the measured curve -/

/-- C3 (evaluation at the failing input): on the stable quantized fan every one of the 32
members of the distinct-target set reads back as itself, yet `measureFanCurve` returns
without error a curve with the keys 0, 8, 16 and 24 only: it probes the indices
`0, …, 31` of the set instead of its members. -/
theorem C3_measureFanCurve_probes_indices :
    (updateDistinctPwmValues quantizedMap).filter (fun p => decide (quantizedResponse p = p))
        = updateDistinctPwmValues quantizedMap
      ∧ (updateDistinctPwmValues quantizedMap).length = 32
      ∧ (measureFanCurve (quantizedSysfs true) (fun _ => (8, 24)) (fun _ => none) (F64.ofInt 5) 20
            (quantizedController (exampleFan false 0 0 "hwmon0/fan1_input" 0) none)
            (simWorld 0 2)).map (fun r => (r.1, r.2.2.1.map (fun entry => entry.1)))
          = some (none, [0, 8, 16, 24]) := by
  refine ⟨by decide!, by decide!, by decide!⟩


/-! ## C4 and C5: restoration -/

theorem setPwm_lastSetPwm {σ π : Type} (sys : Sysfs σ) (f : fanController π) (target : Int)
    (w : World σ) : (setPwm sys f target w).2.1.lastSetPwm = some target := by
  unfold setPwm
  rcases f.fan.GetPwm sys w with ⟨⟨current, err⟩, fan1, w1⟩
  simp only []
  split_ifs <;> rfl

theorem setPwm_keeps {σ π : Type} (sys : Sysfs σ) (f : fanController π) (target : Int)
    (w : World σ) :
    (setPwm sys f target w).2.1.originalPwmEnabled = f.originalPwmEnabled
      ∧ (setPwm sys f target w).2.1.originalPwmValue = f.originalPwmValue
      ∧ (setPwm sys f target w).2.1.pwmMap = f.pwmMap := by
  unfold setPwm
  rcases f.fan.GetPwm sys w with ⟨⟨current, err⟩, fan1, w1⟩
  simp only []
  split_ifs <;> exact ⟨rfl, rfl, rfl⟩

/-- C4 (as stated, refuted): on a fan whose PWM file rejects writes, setting the captured
original PWM value 100 fails; the original control mode 2 is then restored successfully
and the routine returns: `setPwm(MaxPwmValue)` is not reached, the last PWM handed to
`setPwm` is 100 and the only writes issued are the failed 100 and the mode 2. -/
theorem C4_counterexample_original_pwm_fails :
    (setPwm writeProtectedSysfs (quantizedController (exampleFan false 0 0 "" 0) none)
        (quantizedController (exampleFan false 0 0 "" 0) none).originalPwmValue
        (simWorld 200 1)).1 = some (GoError.os 13)
      ∧ (restorePwmEnabled writeProtectedSysfs
          (quantizedController (exampleFan false 0 0 "" 0) none) (simWorld 200 1)).1.lastSetPwm
        = some 100
      ∧ (restorePwmEnabled writeProtectedSysfs
          (quantizedController (exampleFan false 0 0 "" 0) none) (simWorld 200 1)).2.writes
        = [(Endpoint.pwmOutput, 100), (Endpoint.pwmEnable, 2)]
      ∧ (restorePwmEnabled writeProtectedSysfs
          (quantizedController (exampleFan false 0 0 "" 0) none) (simWorld 200 1)).1.lastSetPwm
        ≠ some MaxPwmValue := by
  refine ⟨by decide!, by decide!, by decide!, by decide!⟩

/-- On the same fan with the original mode manual-pwm no restore of the mode is attempted
and the failure to set the original PWM value is followed by `setPwm(MaxPwmValue)`. -/
theorem restorePwmEnabled_example_fallback :
    (restorePwmEnabled writeProtectedSysfs
        { quantizedController (exampleFan false 0 0 "" 0) none with
          originalPwmEnabled := ControlModePWM } (simWorld 200 1)).1.lastSetPwm
        = some MaxPwmValue
      ∧ (restorePwmEnabled writeProtectedSysfs
        { quantizedController (exampleFan false 0 0 "" 0) none with
          originalPwmEnabled := ControlModePWM } (simWorld 200 1)).2.writes
        = [(Endpoint.pwmOutput, 100), (Endpoint.pwmOutput, 255)] := by
  refine ⟨by decide!, by decide!⟩

/-- C4 (amended): with `f1, w1` the state after `setPwm(originalPwmValue)`: when the
restore of the original control mode is attempted (the fan supports the control mode and
the original mode is not manual-pwm) and fails, the routine ends with
`setPwm(MaxPwmValue)`; when setting the original PWM value fails and no restore of the
mode is attempted, it ends with `setPwm(MaxPwmValue)` as well; when the restore of the
mode is attempted and succeeds, the routine returns without the fallback, also after a
failure to set the original PWM value. -/
theorem C4_restore_fallback {σ π : Type} (sys : Sysfs σ) (f : fanController π)
    (w : World σ) :
    (if (setPwm sys f f.originalPwmValue w).2.1.fan.Supports sys FeatureFlag.FeatureControlMode
            (setPwm sys f f.originalPwmValue w).2.2 = true
          ∧ f.originalPwmEnabled ≠ ControlModePWM then
        if (HwMonFan.SetPwmEnabled sys f.originalPwmEnabled
              (setPwm sys f f.originalPwmValue w).2.2).1 = none then
          restorePwmEnabled sys f w
              = ((setPwm sys f f.originalPwmValue w).2.1,
                  (HwMonFan.SetPwmEnabled sys f.originalPwmEnabled
                    (setPwm sys f f.originalPwmValue w).2.2).2)
            ∧ (restorePwmEnabled sys f w).1.lastSetPwm = some f.originalPwmValue
        else
          restorePwmEnabled sys f w
              = (setPwm sys (setPwm sys f f.originalPwmValue w).2.1 MaxPwmValue
                  (HwMonFan.SetPwmEnabled sys f.originalPwmEnabled
                    (setPwm sys f f.originalPwmValue w).2.2).2).2
            ∧ (restorePwmEnabled sys f w).1.lastSetPwm = some MaxPwmValue
      else
        ((setPwm sys f f.originalPwmValue w).1 ≠ none →
          restorePwmEnabled sys f w
              = (setPwm sys (setPwm sys f f.originalPwmValue w).2.1 MaxPwmValue
                  (setPwm sys f f.originalPwmValue w).2.2).2
            ∧ (restorePwmEnabled sys f w).1.lastSetPwm = some MaxPwmValue)) := by
  obtain ⟨hk1, -, -⟩ := setPwm_keeps sys f f.originalPwmValue w
  have hl := setPwm_lastSetPwm sys f f.originalPwmValue w
  unfold restorePwmEnabled
  rcases h1 : setPwm sys f f.originalPwmValue w with ⟨e1, f1, w1⟩
  rw [h1] at hk1 hl
  simp only at hk1 hl ⊢
  rw [hk1]
  by_cases hc : f1.fan.Supports sys FeatureFlag.FeatureControlMode w1 = true
      ∧ f.originalPwmEnabled ≠ ControlModePWM
  · rw [if_pos hc, if_pos hc]
    rcases h2 : HwMonFan.SetPwmEnabled sys f.originalPwmEnabled w1 with ⟨e2, w2⟩
    cases e2 with
    | none => simpa using hl
    | some err =>
      simp only [reduceCtorEq, if_false, true_and]
      exact setPwm_lastSetPwm sys f1 MaxPwmValue w2
  · rw [if_neg hc, if_neg hc]
    intro _
    exact ⟨rfl, setPwm_lastSetPwm sys f1 MaxPwmValue w1⟩

/-- C5 (evaluation at the failing input): on the stable quantized fan, where no read or
write fails, restoration of a fan without control mode file and of a fan whose original
mode was manual-pwm writes the original PWM value 100 and then `MaxPwmValue`, leaving the
fan at 248; only when the original mode 2 is written back is 100 the only PWM written. -/
theorem C5_restorePwmEnabled_writes_max_without_failure :
    (restorePwmEnabled (quantizedSysfs false)
          (quantizedController (exampleFan false 0 0 "hwmon0/fan1_input" 800) none)
          (simWorld 200 0)).2.writes
        = [(Endpoint.pwmOutput, 100), (Endpoint.pwmOutput, 255)]
      ∧ (restorePwmEnabled (quantizedSysfs false)
          (quantizedController (exampleFan false 0 0 "hwmon0/fan1_input" 800) none)
          (simWorld 200 0)).2.dev.pwm = 248
      ∧ (restorePwmEnabled (quantizedSysfs true)
          { quantizedController (exampleFan false 0 0 "hwmon0/fan1_input" 800) none with
            originalPwmEnabled := ControlModePWM }
          (simWorld 200 1)).2.writes
        = [(Endpoint.pwmOutput, 100), (Endpoint.pwmOutput, 255)]
      ∧ (restorePwmEnabled (quantizedSysfs true)
          (quantizedController (exampleFan false 0 0 "hwmon0/fan1_input" 800) none)
          (simWorld 200 1)).2.writes
        = [(Endpoint.pwmOutput, 100), (Endpoint.pwmEnable, 2)] := by
  refine ⟨by decide!, by decide!, by decide!, by decide!⟩

/-! ## C6: never-stop enforcement -/

/-- C6: after a successful curve evaluation `calculateTargetPwm` returns, and with `q` the
quantized target: for a never-stop fan with RPM sensor, a previous PWM set and a moving
average `≤ 0`, either `q ≥ max_pwm`, the result is `-1` and `min_pwm` and the average are
unchanged, or `min_pwm` grows by exactly 1, the result is `q + 1` and the average becomes 1;
in every other case the result is `q` and `min_pwm` and the average are unchanged. -/
theorem C6_never_stop_enforcement {σ π : Type} (sys : Sysfs σ)
    (FindClosest : Int → List Int → Int) (curveValue : Int) (f : fanController π)
    (w : World σ) :
    ∃ t f' w',
      calculateTargetPwm sys FindClosest (curveValue, none) f w = some (t, f', w')
        ∧ (if f.fan.Supports sys FeatureFlag.FeatureRpmSensor w = true
              ∧ f.fan.ShouldNeverStop = true ∧ f.lastSetPwm ≠ none
              ∧ F64.le f.fan.GetRpmAvg (F64.ofInt 0) then
            if quantizedTarget FindClosest f curveValue ≥ f.fan.GetMaxPwm then
              t = -1 ∧ f'.fan.GetMinPwm = f.fan.GetMinPwm
                ∧ f'.fan.GetRpmAvg = f.fan.GetRpmAvg
            else
              f'.fan.GetMinPwm = f.fan.GetMinPwm + 1
                ∧ t = quantizedTarget FindClosest f curveValue + 1
                ∧ f'.fan.GetRpmAvg = F64.ofInt 1
          else
            t = quantizedTarget FindClosest f curveValue
              ∧ f'.fan.GetMinPwm = f.fan.GetMinPwm
              ∧ f'.fan.GetRpmAvg = f.fan.GetRpmAvg) := by
  obtain ⟨p, h⟩ := calculateTargetPwm_cases sys FindClosest curveValue f w
  rw [h]
  simp only [HwMonFan.Supports, HwMonFan.ShouldNeverStop, HwMonFan.GetRpmAvg]
  by_cases hc : (decide (f.fan.Config.RpmInput.length > 0) = true ∧ f.fan.Config.NeverStop = true
      ∧ f.lastSetPwm ≠ none) ∧ F64.le f.fan.RpmMovingAvg (F64.ofInt 0)
  · have hc' : decide (f.fan.Config.RpmInput.length > 0) = true ∧ f.fan.Config.NeverStop = true
        ∧ f.lastSetPwm ≠ none ∧ F64.le f.fan.RpmMovingAvg (F64.ofInt 0) :=
      ⟨hc.1.1, hc.1.2.1, hc.1.2.2, hc.2⟩
    rw [if_pos hc]
    by_cases hm : quantizedTarget FindClosest f curveValue ≥ f.fan.GetMaxPwm
    · rw [if_pos hm]
      refine ⟨_, _, _, rfl, ?_⟩
      rw [if_pos hc', if_pos hm]
      exact ⟨rfl, rfl, rfl⟩
    · rw [if_neg hm]
      refine ⟨_, _, _, rfl, ?_⟩
      rw [if_pos hc', if_neg hm]
      refine ⟨?_, rfl, rfl⟩
      simp [HwMonFan.GetMinPwm, HwMonFan.SetMinPwm, HwMonFan.SetRpmAvg,
        HwMonFan.ShouldNeverStop, hc.1.2.1]
  · have hc' : ¬ (decide (f.fan.Config.RpmInput.length > 0) = true
        ∧ f.fan.Config.NeverStop = true
        ∧ f.lastSetPwm ≠ none ∧ F64.le f.fan.RpmMovingAvg (F64.ofInt 0)) :=
      fun h4 => hc ⟨⟨h4.1, h4.2.1, h4.2.2.1⟩, h4.2.2.2⟩
    rw [if_neg hc]
    refine ⟨_, _, _, rfl, ?_⟩
    rw [if_neg hc']
    exact ⟨rfl, rfl, rfl⟩

/-! ## C7: the invariant of the fan handle across a tick -/

/-- C7 (as stated, refuted): the fan left by `AttachFanCurveData` has
`min_pwm = start_pwm = 48` and satisfies the invariant; the fan stands still (average 0)
and the tick increments `min_pwm` to 49, above `start_pwm`, so the invariant fails. -/
theorem C7_counterexample_increment_above_start :
    pwmInvariant attachedFan ∧ attachedFan.GetMinPwm = attachedFan.GetStartPwm
      ∧ ∃ t f' w',
        calculateTargetPwm (quantizedSysfs true) nearest (0, none)
            (quantizedController attachedFan (some 48)) (simWorld 48 1) = some (t, f', w')
          ∧ f'.fan.GetMinPwm = 49 ∧ f'.fan.GetStartPwm = 48 ∧ ¬ pwmInvariant f'.fan := by
  refine ⟨by decide!, by decide!, ?_⟩
  obtain ⟨p, h⟩ := calculateTargetPwm_cases (quantizedSysfs true) nearest 0
    (quantizedController attachedFan (some 48)) (simWorld 48 1)
  rw [if_pos (by decide!), if_neg (by decide!)] at h
  have hmin : (quantizedController attachedFan (some 48)).fan.GetMinPwm + 1 = 49 := by decide!
  have hns : (quantizedController attachedFan (some 48)).fan.Config.NeverStop = true := by
    decide!
  have hstart : (quantizedController attachedFan (some 48)).fan.StartPwm = some 48 := by
    decide!
  refine ⟨_, _, _, h, ?_, ?_, ?_⟩
  · simp only [HwMonFan.GetMinPwm, HwMonFan.SetMinPwm, HwMonFan.SetRpmAvg,
      HwMonFan.ShouldNeverStop, hns, if_true] at hmin ⊢
    exact hmin
  · simp only [HwMonFan.GetStartPwm, HwMonFan.SetMinPwm, HwMonFan.SetRpmAvg, hstart]
  · intro hinv
    have h3 := hinv.2.2.1
    simp only [HwMonFan.GetMinPwm, HwMonFan.GetStartPwm, HwMonFan.SetMinPwm,
      HwMonFan.SetRpmAvg, HwMonFan.ShouldNeverStop, hns, hstart, if_true] at hmin h3
    omega

/-- C7 (amended): a tick that starts from a fan satisfying the invariant leaves `start_pwm`
and `max_pwm` as they were and `min_pwm` either unchanged or greater by exactly 1; so
`MinPwmValue ≤ min_pwm` and `start_pwm ≤ max_pwm ≤ MaxPwmValue` still hold, and the whole
invariant still holds when `min_pwm` was not incremented or was below `start_pwm` before. -/
theorem C7_invariant_after_tick {σ π : Type} (sys : Sysfs σ)
    (FindClosest : Int → List Int → Int) (curveValue : Int) (f : fanController π)
    (w : World σ) (hinv : pwmInvariant f.fan) :
    ∃ t f' w',
      calculateTargetPwm sys FindClosest (curveValue, none) f w = some (t, f', w')
        ∧ f'.fan.GetStartPwm = f.fan.GetStartPwm ∧ f'.fan.GetMaxPwm = f.fan.GetMaxPwm
        ∧ (f'.fan.GetMinPwm = f.fan.GetMinPwm ∨ f'.fan.GetMinPwm = f.fan.GetMinPwm + 1)
        ∧ (MinPwmValue ≤ f'.fan.GetMinPwm ∧ f'.fan.GetStartPwm ≤ f'.fan.GetMaxPwm
            ∧ f'.fan.GetMaxPwm ≤ MaxPwmValue)
        ∧ ((f.fan.GetMinPwm < f.fan.GetStartPwm ∨ f'.fan.GetMinPwm = f.fan.GetMinPwm)
            → pwmInvariant f'.fan) := by
  obtain ⟨p, h⟩ := calculateTargetPwm_cases sys FindClosest curveValue f w
  obtain ⟨h0, h1, h2, h3, h4⟩ := hinv
  rw [h]
  split_ifs with hc hm
  · exact ⟨_, _, _, rfl, rfl, rfl, Or.inl rfl, ⟨h1, h3, h4⟩, fun _ => ⟨h0, h1, h2, h3, h4⟩⟩
  · have hns : f.fan.Config.NeverStop = true := hc.1.2.1
    have hmin' : (HwMonFan.SetRpmAvg (HwMonFan.SetMinPwm { f.fan with Pwm := p }
        (f.fan.GetMinPwm + 1)) (F64.ofInt 1)).GetMinPwm = f.fan.GetMinPwm + 1 := by
      simp [HwMonFan.GetMinPwm, HwMonFan.SetMinPwm, HwMonFan.SetRpmAvg,
        HwMonFan.ShouldNeverStop, hns]
    refine ⟨_, _, _, rfl, rfl, rfl, Or.inr hmin', ⟨?_, h3, h4⟩, ?_⟩
    · rw [hmin']
      omega
    · intro hor
      refine ⟨h0, ?_, ?_, h3, h4⟩
      · rw [hmin']
        omega
      · rw [hmin']
        rcases hor with hlt | heq
        · exact hlt
        · rw [hmin'] at heq
          omega
  · exact ⟨_, _, _, rfl, rfl, rfl, Or.inl rfl, ⟨h1, h3, h4⟩, fun _ => ⟨h0, h1, h2, h3, h4⟩⟩

/-- Witness of `C7_invariant_after_tick`: a standing never-stop fan with `min_pwm = 40`
below `start_pwm = 48`, whose tick increments `min_pwm`. -/
theorem C7_invariant_after_tick_witness :
    pwmInvariant (quantizedController (exampleFan true 40 48 "hwmon0/fan1_input" 0) (some 40)).fan
    ∧ ∃ t f' w',
      calculateTargetPwm (quantizedSysfs true) nearest (0, none)
          (quantizedController (exampleFan true 40 48 "hwmon0/fan1_input" 0) (some 40))
          (simWorld 40 1) = some (t, f', w')
        ∧ f'.fan.GetStartPwm
            = (quantizedController (exampleFan true 40 48 "hwmon0/fan1_input" 0) (some 40)).fan.GetStartPwm
        ∧ f'.fan.GetMaxPwm
            = (quantizedController (exampleFan true 40 48 "hwmon0/fan1_input" 0) (some 40)).fan.GetMaxPwm
        ∧ (f'.fan.GetMinPwm
              = (quantizedController (exampleFan true 40 48 "hwmon0/fan1_input" 0) (some 40)).fan.GetMinPwm
            ∨ f'.fan.GetMinPwm
              = (quantizedController (exampleFan true 40 48 "hwmon0/fan1_input" 0) (some 40)).fan.GetMinPwm + 1)
        ∧ (MinPwmValue ≤ f'.fan.GetMinPwm ∧ f'.fan.GetStartPwm ≤ f'.fan.GetMaxPwm
            ∧ f'.fan.GetMaxPwm ≤ MaxPwmValue)
        ∧ (((quantizedController (exampleFan true 40 48 "hwmon0/fan1_input" 0) (some 40)).fan.GetMinPwm
                < (quantizedController (exampleFan true 40 48 "hwmon0/fan1_input" 0) (some 40)).fan.GetStartPwm
              ∨ f'.fan.GetMinPwm
                = (quantizedController (exampleFan true 40 48 "hwmon0/fan1_input" 0) (some 40)).fan.GetMinPwm)
            → pwmInvariant f'.fan) :=
  ⟨by decide!,
    C7_invariant_after_tick (quantizedSysfs true) nearest 0
      (quantizedController (exampleFan true 40 48 "hwmon0/fan1_input" 0) (some 40))
      (simWorld 40 1) (by decide!)⟩

/-! ## C8: `setPwm` on a stable simulated fan -/

theorem lookup_filter_ne {β : Type} (m : List (Int × β)) (i k : Int) :
    List.lookup k (m.filter (fun entry => entry.1 ≠ i)) = if k = i then none else List.lookup k m := by
  induction m with
  | nil => simp
  | cons entry rest ih =>
    obtain ⟨a, b⟩ := entry
    by_cases hai : a = i
    · subst hai
      simp only [ne_eq, not_true_eq_false, decide_False, Bool.false_eq_true, not_false_eq_true,
        List.filter_cons_of_neg]
      rw [ih]
      by_cases hk : k = a
      · simp [hk]
      · have hb : (k == a) = false := by simpa using hk
        simp [hk, List.lookup_cons, hb]
    · rw [List.filter_cons]
      simp only [ne_eq, hai, not_false_eq_true, decide_True, if_true]
      rw [List.lookup_cons, List.lookup_cons, ih]
      by_cases hk : k = a
      · subst hk
        simp [hai]
      · have hb : (k == a) = false := by simpa using hk
        simp [hb]

theorem goMapSet_lookup {β : Type} (m : List (Int × β)) (i k : Int) (v : β) :
    List.lookup k (goMapSet m i v) = if k = i then some v else List.lookup k m := by
  unfold goMapSet
  rw [List.lookup_append, lookup_filter_ne]
  by_cases hk : k = i
  · simp [hk]
  · have : (k == i) = false := by simpa using hk
    simp [hk, List.lookup_cons, this]

theorem PwmMap_get_goMapSet (m : PwmMap) (i k v : Int) :
    PwmMap.get (goMapSet m i v) k = if k = i then v else PwmMap.get m k := by
  unfold PwmMap.get
  rw [goMapSet_lookup]
  split_ifs <;> rfl

theorem sim_SetPwm (response rpmOf : Int → Int) (hasEnable : Bool) (i : Int)
    (w : World SimFan) :
    HwMonFan.SetPwm (simSysfs response rpmOf hasEnable) i w
      = (none, { dev := { w.dev with pwm := response i },
                 writes := w.writes ++ [(Endpoint.pwmOutput, i)] }) := rfl

theorem sim_GetPwm (response rpmOf : Int → Int) (hasEnable : Bool) (fan : HwMonFan)
    (w : World SimFan) :
    fan.GetPwm (simSysfs response rpmOf hasEnable) w
      = ((w.dev.pwm, none), { fan with Pwm := w.dev.pwm }, w) := rfl

/-- On the stable simulated fan the loop of `computePwmMap` records `response k` for every
probed `k` and leaves the other keys as they were. -/
theorem computePwmMapLoop_sim (response rpmOf : Int → Int) (hasEnable : Bool)
    (l : List Int) (fan : HwMonFan) (m : PwmMap) (w : World SimFan) (k : Int) :
    PwmMap.get (computePwmMapLoop (simSysfs response rpmOf hasEnable) l fan m w).1 k
      = if k ∈ l then response k else PwmMap.get m k := by
  induction l generalizing fan m w with
  | nil => simp [computePwmMapLoop]
  | cons i rest ih =>
    simp only [computePwmMapLoop, sim_SetPwm, sim_GetPwm]
    rw [ih, PwmMap_get_goMapSet]
    by_cases hr : k ∈ rest
    · simp [hr]
    · by_cases hki : k = i
      · simp [hki]
      · simp [hr, hki]

theorem mem_probedValues (x : Int) (h0 : 0 ≤ x) (h1 : x ≤ 255) : x ∈ probedValues := by
  simp only [probedValues, MaxPwmValue, MinPwmValue, List.mem_map, List.mem_range]
  refine ⟨(255 - x).toNat, ?_, ?_⟩
  · have : ((255 - x).toNat : Int) = 255 - x := Int.toNat_of_nonneg (by omega)
    have h2 : ((255 : Int) - 0 + 1).toNat = 256 := by decide
    omega
  · have : ((255 - x).toNat : Int) = 255 - x := Int.toNat_of_nonneg (by omega)
    simp only [Int.ofNat_eq_coe]
    omega

/-- The PWM map computed on the stable simulated fan reports `response x` for every `x`
in `0..255`. -/
theorem computePwmMap_sim {π : Type} (response rpmOf : Int → Int) (hasEnable : Bool)
    (f0 : fanController π) (w0 : World SimFan) (x : Int) (h0 : 0 ≤ x) (h1 : x ≤ 255) :
    mapIndex (computePwmMap (simSysfs response rpmOf hasEnable) f0 w0).1.pwmMap x
      = response x := by
  unfold computePwmMap
  rcases trySetManualPwm (simSysfs response rpmOf hasEnable) f0.fan w0 with ⟨e, w1⟩
  simp only []
  have h := computePwmMapLoop_sim response rpmOf hasEnable probedValues f0.fan [] w1 x
  rw [if_pos (mem_probedValues x h0 h1)] at h
  rcases hl : computePwmMapLoop (simSysfs response rpmOf hasEnable) probedValues f0.fan [] w1
    with ⟨pwmMap, fan1, w2⟩
  rw [hl] at h
  simpa [mapIndex] using h

/-- C8: on a stable simulated fan that reports `response x` after a write of `x`, with the
controller's PWM map being the one computed on that fan, for every `x` in `0..255` and
every current PWM reading: `setPwm(x)` returns no error, records `x` as the last-set PWM,
issues no write when `pwm_map[x]` equals the current reading and the single write of `x`
otherwise, and a `GetPwm` right after it returns `pwm_map[x]` (which is `response x`). -/
theorem C8_setPwm_then_GetPwm {π : Type} (response rpmOf : Int → Int) (hasEnable : Bool)
    (f0 : fanController π) (w0 : World SimFan) (f : fanController π)
    (x : Int) (hx0 : 0 ≤ x) (hx1 : x ≤ 255) (w : World SimFan) :
    (setPwm (simSysfs response rpmOf hasEnable)
        (withComputedMap (simSysfs response rpmOf hasEnable) f0 w0 f) x w).1 = none
      ∧ (setPwm (simSysfs response rpmOf hasEnable)
          (withComputedMap (simSysfs response rpmOf hasEnable) f0 w0 f) x w).2.1.lastSetPwm
          = some x
      ∧ (setPwm (simSysfs response rpmOf hasEnable)
          (withComputedMap (simSysfs response rpmOf hasEnable) f0 w0 f) x w).2.2.writes
          = (if mapIndex (withComputedMap (simSysfs response rpmOf hasEnable) f0 w0 f).pwmMap x
                = w.dev.pwm then w.writes
             else w.writes ++ [(Endpoint.pwmOutput, x)])
      ∧ ((setPwm (simSysfs response rpmOf hasEnable)
            (withComputedMap (simSysfs response rpmOf hasEnable) f0 w0 f) x w).2.1.fan.GetPwm
          (simSysfs response rpmOf hasEnable)
          (setPwm (simSysfs response rpmOf hasEnable)
            (withComputedMap (simSysfs response rpmOf hasEnable) f0 w0 f) x w).2.2).1
          = (mapIndex (withComputedMap (simSysfs response rpmOf hasEnable) f0 w0 f).pwmMap x,
              none)
      ∧ mapIndex (withComputedMap (simSysfs response rpmOf hasEnable) f0 w0 f).pwmMap x
          = response x := by
  have hmap : mapIndex (withComputedMap (simSysfs response rpmOf hasEnable) f0 w0 f).pwmMap x
      = response x := computePwmMap_sim response rpmOf hasEnable f0 w0 x hx0 hx1
  simp only [setPwm, sim_GetPwm, sim_SetPwm, true_and]
  by_cases hc : mapIndex (withComputedMap (simSysfs response rpmOf hasEnable) f0 w0 f).pwmMap x
      = w.dev.pwm
  · simp only [hc, if_true]
    exact ⟨trivial, trivial, trivial, trivial, hc ▸ hmap⟩
  · simp only [hc, if_false]
    exact ⟨trivial, trivial, trivial, by rw [hmap], hmap⟩

/-- Witness of `C8_setPwm_then_GetPwm`: `setPwm(100)` on the quantized fan standing at PWM
200, with the PWM map computed on that fan from the controller `unmappedController`. -/
theorem C8_setPwm_then_GetPwm_witness :
    ((0 : Int) ≤ 100 ∧ (100 : Int) ≤ 255)
      ∧ ((setPwm (simSysfs quantizedResponse tenfold true)
          (withComputedMap (simSysfs quantizedResponse tenfold true) unmappedController
            (simWorld 0 2) unmappedController) 100 (simWorld 200 1)).1 = none
      ∧ (setPwm (simSysfs quantizedResponse tenfold true)
          (withComputedMap (simSysfs quantizedResponse tenfold true) unmappedController
            (simWorld 0 2) unmappedController) 100 (simWorld 200 1)).2.1.lastSetPwm = some 100
      ∧ (setPwm (simSysfs quantizedResponse tenfold true)
          (withComputedMap (simSysfs quantizedResponse tenfold true) unmappedController
            (simWorld 0 2) unmappedController) 100 (simWorld 200 1)).2.2.writes
          = (if mapIndex (withComputedMap (simSysfs quantizedResponse tenfold true)
                unmappedController (simWorld 0 2) unmappedController).pwmMap 100
                = (simWorld 200 1).dev.pwm then (simWorld 200 1).writes
             else (simWorld 200 1).writes ++ [(Endpoint.pwmOutput, 100)])
      ∧ ((setPwm (simSysfs quantizedResponse tenfold true)
            (withComputedMap (simSysfs quantizedResponse tenfold true) unmappedController
              (simWorld 0 2) unmappedController) 100 (simWorld 200 1)).2.1.fan.GetPwm
          (simSysfs quantizedResponse tenfold true)
          (setPwm (simSysfs quantizedResponse tenfold true)
            (withComputedMap (simSysfs quantizedResponse tenfold true) unmappedController
              (simWorld 0 2) unmappedController) 100 (simWorld 200 1)).2.2).1
          = (mapIndex (withComputedMap (simSysfs quantizedResponse tenfold true)
              unmappedController (simWorld 0 2) unmappedController).pwmMap 100, none)
      ∧ mapIndex (withComputedMap (simSysfs quantizedResponse tenfold true)
            unmappedController (simWorld 0 2) unmappedController).pwmMap 100
          = quantizedResponse 100) :=
  ⟨⟨by decide, by decide⟩,
    C8_setPwm_then_GetPwm quantizedResponse tenfold true unmappedController (simWorld 0 2)
      unmappedController 100 (by decide) (by decide) (simWorld 200 1)⟩

/-! ## C9: the sentinel in `UpdateFanSpeed` -/

theorem ReadIntFromFile_writes {σ : Type} (sys : Sysfs σ) (path : Endpoint) (w : World σ) :
    (ReadIntFromFile sys path w).2.writes = w.writes := by
  unfold ReadIntFromFile
  rcases sys.readFile path w.dev with ⟨r, d⟩
  cases r <;> rfl

theorem GetPwm_writes {σ : Type} (sys : Sysfs σ) (fan : HwMonFan) (w : World σ) :
    (fan.GetPwm sys w).2.2.writes = w.writes := by
  have h := ReadIntFromFile_writes sys Endpoint.pwmOutput w
  unfold HwMonFan.GetPwm
  rcases hr : ReadIntFromFile sys Endpoint.pwmOutput w with ⟨⟨v, e⟩, w1⟩
  rw [hr] at h
  cases e <;> exact h

theorem thirdPartyCheck_writes {σ π : Type} (sys : Sysfs σ) (f : fanController π)
    (w : World σ) : (thirdPartyCheck sys f w).2.writes = w.writes := by
  unfold thirdPartyCheck
  split_ifs
  · exact GetPwm_writes sys f.fan w
  · rfl

/-- No write is issued by `calculateTargetPwm`, which also keeps the record of the last PWM set and the
state of the PID loop. -/
theorem calculateTargetPwm_keeps {σ π : Type} (sys : Sysfs σ)
    (FindClosest : Int → List Int → Int) (curveValue : Int) (f : fanController π)
    (w : World σ) (t : Int) (f' : fanController π) (w' : World σ)
    (h : calculateTargetPwm sys FindClosest (curveValue, none) f w = some (t, f', w')) :
    w'.writes = w.writes ∧ f'.lastSetPwm = f.lastSetPwm ∧ f'.pidLoop = f.pidLoop := by
  obtain ⟨p, hp⟩ := calculateTargetPwm_cases sys FindClosest curveValue f w
  rw [hp] at h
  have hw := thirdPartyCheck_writes sys f w
  split_ifs at h <;>
    · simp only [Option.some.injEq, Prod.mk.injEq] at h
      obtain ⟨-, hf, hw'⟩ := h
      subst hf hw'
      exact ⟨hw, rfl, rfl⟩

/-- C9: in a tick whose read of the current PWM succeeds and whose `calculateTargetPwm`
yields `t`: when `t = -1`, `UpdateFanSpeed` returns no error, issues no write to the PWM
or control mode file and leaves the record of the last PWM set unchanged; when `0 ≤ t`,
it returns no error after `trySetManualPwm` and a call of `setPwm` with the rounded
target, which thereby becomes the last PWM set. -/
theorem C9_UpdateFanSpeed_sentinel {σ π : Type} (sys : Sysfs σ)
    (FindClosest : Int → List Int → Int) (Loop : π → F64 → F64 → F64 × π)
    (curveValue : Int) (f : fanController π) (w : World σ)
    (currentPwm : Int) (fan1 : HwMonFan) (w1 : World σ)
    (hread : f.fan.GetPwm sys w = ((currentPwm, none), fan1, w1))
    (t : Int) (f2 : fanController π) (w2 : World σ)
    (hcalc : calculateTargetPwm sys FindClosest (curveValue, none) { f with fan := fan1 } w1
      = some (t, f2, w2)) :
    (t = -1 →
        ∃ f' w', UpdateFanSpeed sys FindClosest Loop (curveValue, none) f w = some (none, f', w')
          ∧ w'.writes = w.writes ∧ f'.lastSetPwm = f.lastSetPwm)
      ∧ (0 ≤ t →
        UpdateFanSpeed sys FindClosest Loop (curveValue, none) f w
            = some (none,
                (setPwm sys
                  { f2 with pidLoop := (Loop f2.pidLoop (F64.ofInt t) (F64.ofInt currentPwm)).2 }
                  (roundedPidTarget (Loop f2.pidLoop (F64.ofInt t) (F64.ofInt currentPwm)).1
                    currentPwm)
                  (trySetManualPwm sys f2.fan w2).2).2)
          ∧ (setPwm sys
                  { f2 with pidLoop := (Loop f2.pidLoop (F64.ofInt t) (F64.ofInt currentPwm)).2 }
                  (roundedPidTarget (Loop f2.pidLoop (F64.ofInt t) (F64.ofInt currentPwm)).1
                    currentPwm)
                  (trySetManualPwm sys f2.fan w2).2).2.1.lastSetPwm
              = some (roundedPidTarget
                  (Loop f2.pidLoop (F64.ofInt t) (F64.ofInt currentPwm)).1 currentPwm)) := by
  obtain ⟨hw2, hl2, -⟩ := calculateTargetPwm_keeps sys FindClosest curveValue _ w1 t f2 w2 hcalc
  have hw1 : w1.writes = w.writes := by
    have := GetPwm_writes sys f.fan w
    rw [hread] at this
    exact this
  constructor
  · intro ht
    have hneg : ¬ (t ≥ 0) := by omega
    refine ⟨{ f2 with pidLoop := (Loop f2.pidLoop (F64.ofInt t) (F64.ofInt currentPwm)).2 }, w2,
      ?_, hw2.trans hw1, hl2⟩
    simp only [UpdateFanSpeed, hread, hcalc, hneg, if_false]
  · intro ht
    have hpos : t ≥ 0 := ht
    refine ⟨?_, setPwm_lastSetPwm sys _ _ _⟩
    simp only [UpdateFanSpeed, hread, hcalc, hpos, if_true]

/-- Witness of `C9_UpdateFanSpeed_sentinel`: the stalled never-stop fan at its maximum 248
with the curve value 255, where `calculateTargetPwm` yields `-1`. -/
theorem C9_UpdateFanSpeed_sentinel_witness :
    (stalledFan 0).GetPwm (quantizedSysfs true) (simWorld 248 1)
        = ((248, none), stalledFan 248, simWorld 248 1)
      ∧ calculateTargetPwm (quantizedSysfs true) nearest (255, none)
          { quantizedController (stalledFan 0) (some 248) with fan := stalledFan 248 }
          (simWorld 248 1)
        = some (-1, quantizedController (stalledFan 248) (some 248), simWorld 248 1)
      ∧ (((-1 : Int) = -1 →
          ∃ f' w', UpdateFanSpeed (quantizedSysfs true) nearest proportionalLoop (255, none)
              (quantizedController (stalledFan 0) (some 248)) (simWorld 248 1)
                = some (none, f', w')
            ∧ w'.writes = (simWorld 248 1).writes
            ∧ f'.lastSetPwm = (quantizedController (stalledFan 0) (some 248)).lastSetPwm)
        ∧ ((0 : Int) ≤ -1 →
          UpdateFanSpeed (quantizedSysfs true) nearest proportionalLoop (255, none)
              (quantizedController (stalledFan 0) (some 248)) (simWorld 248 1)
            = some (none,
                (setPwm (quantizedSysfs true)
                  { quantizedController (stalledFan 248) (some 248) with
                    pidLoop := (proportionalLoop
                      (quantizedController (stalledFan 248) (some 248)).pidLoop
                      (F64.ofInt (-1)) (F64.ofInt 248)).2 }
                  (roundedPidTarget (proportionalLoop
                      (quantizedController (stalledFan 248) (some 248)).pidLoop
                      (F64.ofInt (-1)) (F64.ofInt 248)).1 248)
                  (trySetManualPwm (quantizedSysfs true)
                    (quantizedController (stalledFan 248) (some 248)).fan (simWorld 248 1)).2).2)
          ∧ (setPwm (quantizedSysfs true)
                  { quantizedController (stalledFan 248) (some 248) with
                    pidLoop := (proportionalLoop
                      (quantizedController (stalledFan 248) (some 248)).pidLoop
                      (F64.ofInt (-1)) (F64.ofInt 248)).2 }
                  (roundedPidTarget (proportionalLoop
                      (quantizedController (stalledFan 248) (some 248)).pidLoop
                      (F64.ofInt (-1)) (F64.ofInt 248)).1 248)
                  (trySetManualPwm (quantizedSysfs true)
                    (quantizedController (stalledFan 248) (some 248)).fan
                    (simWorld 248 1)).2).2.1.lastSetPwm
              = some (roundedPidTarget (proportionalLoop
                      (quantizedController (stalledFan 248) (some 248)).pidLoop
                      (F64.ofInt (-1)) (F64.ofInt 248)).1 248))) :=
  ⟨by decide!, by decide!,
    C9_UpdateFanSpeed_sentinel (quantizedSysfs true) nearest proportionalLoop 255
      (quantizedController (stalledFan 0) (some 248)) (simWorld 248 1)
      248 (stalledFan 248) (simWorld 248 1) (by decide!)
      (-1) (quantizedController (stalledFan 248) (some 248)) (simWorld 248 1) (by decide!)⟩

/-- The same tick at the curve value 0 on a turning fan: the target is non-negative and the
rounded target 0 is handed to `setPwm`. -/
theorem UpdateFanSpeed_example_sets_pwm :
    (UpdateFanSpeed (quantizedSysfs true) nearest proportionalLoop (0, none)
        (quantizedController (exampleFan false 0 0 "hwmon0/fan1_input" 800) (some 248))
        (simWorld 248 1)).map (fun r => (r.1, r.2.1.lastSetPwm, r.2.2.writes))
      = some (none, some 0, [(Endpoint.pwmEnable, 1), (Endpoint.pwmOutput, 0)]) := by
  decide!

/-! ## C10: `AttachFanCurveData` -/

/-- C10: `AttachFanCurveData` returns `os.ErrInvalid` exactly when the curve is nil or
empty, and then the fan is unchanged; for every other curve it returns no error, attaches
the curve, sets `start_pwm` and `max_pwm` to the boundaries derived from the fan with the
curve attached, and sets `min_pwm` (the field `Config.MinPwm`, which `GetMinPwm` reports
for a never-stop fan) to the derived start. -/
theorem C10_AttachFanCurveData (ComputePwmBoundaries : HwMonFan → Int × Int)
    (fan : HwMonFan) (curveData : Option (List (Int × F64))) :
    ((fan.AttachFanCurveData ComputePwmBoundaries curveData).1 = some GoError.invalid
        ↔ (curveData = none ∨ curveData = some []))
      ∧ (if curveData = none ∨ curveData = some [] then
          (fan.AttachFanCurveData ComputePwmBoundaries curveData).2 = fan
        else
          (fan.AttachFanCurveData ComputePwmBoundaries curveData).1 = none
            ∧ (fan.AttachFanCurveData ComputePwmBoundaries curveData).2.GetFanCurveData = curveData
            ∧ (fan.AttachFanCurveData ComputePwmBoundaries curveData).2.GetStartPwm
                = (ComputePwmBoundaries { fan with FanCurveData := curveData }).1
            ∧ (fan.AttachFanCurveData ComputePwmBoundaries curveData).2.GetMaxPwm
                = (ComputePwmBoundaries { fan with FanCurveData := curveData }).2
            ∧ (fan.AttachFanCurveData ComputePwmBoundaries curveData).2.Config.MinPwm
                = some (ComputePwmBoundaries { fan with FanCurveData := curveData }).1
            ∧ (fan.AttachFanCurveData ComputePwmBoundaries curveData).2.GetMinPwm
                = (if fan.ShouldNeverStop = true then
                    (ComputePwmBoundaries { fan with FanCurveData := curveData }).1
                  else MinPwmValue)) := by
  cases curveData with
  | none => simp [HwMonFan.AttachFanCurveData]
  | some data =>
    cases data with
    | nil => simp [HwMonFan.AttachFanCurveData]
    | cons entry rest =>
      simp [HwMonFan.AttachFanCurveData, HwMonFan.GetFanCurveData, HwMonFan.GetStartPwm,
        HwMonFan.GetMaxPwm, HwMonFan.GetMinPwm, HwMonFan.SetStartPwm, HwMonFan.SetMaxPwm,
        HwMonFan.SetMinPwm, HwMonFan.ShouldNeverStop]

/-! ## C11: the tick after a never-stop increment -/

theorem GetMinPwm_of_Config (a b : HwMonFan) (h : a.Config = b.Config) :
    a.GetMinPwm = b.GetMinPwm := by
  simp [HwMonFan.GetMinPwm, HwMonFan.ShouldNeverStop, h]

theorem GetMaxPwm_of_Config (a b : HwMonFan) (h : a.Config = b.Config) :
    a.GetMaxPwm = b.GetMaxPwm := by
  simp [HwMonFan.GetMaxPwm, h]

/-- C11 (as stated, refuted): on the ideal linear fan (identity PWM map) with
`min_pwm = 48`, `max_pwm = 255`, curve value 0 and a standing fan, the tick increments
`min_pwm` to 49 and returns 49; the next tick, with the same curve value, returns 49
again, which is not strictly greater although 49 is below `max_pwm`. -/
theorem C11_counterexample_next_target_equal :
    calculateTargetPwm identitySysfs nearest (0, none)
        (identityController fanBeforeIncrement) (simWorld 48 1)
        = some (49, identityController fanAfterIncrement, simWorld 48 1)
      ∧ (identityController fanAfterIncrement).fan.GetMinPwm
          = (identityController fanBeforeIncrement).fan.GetMinPwm + 1
      ∧ calculateTargetPwm identitySysfs nearest (0, none)
          (identityController fanAfterIncrement) (simWorld 48 1)
          = some (49, identityController fanAfterIncrement, simWorld 48 1)
      ∧ ¬ ((49 : Int) < 49)
      ∧ (49 : Int) < (identityController fanAfterIncrement).fan.GetMaxPwm := by
  refine ⟨by decide!, by decide!, by decide!, by decide, by decide!⟩

/-- On the quantized fan the target of the next tick is even smaller: the incrementing
tick returns 49, the next tick snaps 49 to the representative 48 and returns 48. -/
theorem never_stop_quantized_next_target_smaller :
    calculateTargetPwm (quantizedSysfs true) nearest (0, none)
        (quantizedController fanBeforeIncrement (some 48)) (simWorld 48 1)
        = some (49, quantizedController fanAfterIncrement (some 48), simWorld 48 1)
      ∧ calculateTargetPwm (quantizedSysfs true) nearest (0, none)
          (quantizedController fanAfterIncrement (some 48)) (simWorld 48 1)
          = some (48, quantizedController fanAfterIncrement (some 48), simWorld 48 1) := by
  refine ⟨by decide!, by decide!⟩

/-- C11 (amended): if a tick's `calculateTargetPwm` increments `min_pwm`, its result is the
quantized target plus 1 and at most `max_pwm`; and in the next tick, for the same curve
value and a controller that agrees with the one left by the incrementing tick in the
configuration of the fan, the moving average (still the seed), the PWM map and the distinct
values, `calculateTargetPwm` makes no further increment: it returns the quantized target
of the raised range, and `min_pwm` stays strictly greater than before the increment, by
exactly 1, with `max_pwm` unchanged. -/
theorem C11_next_tick_after_increment {σ π : Type} (sys : Sysfs σ)
    (FindClosest : Int → List Int → Int) (curveValue : Int) (f : fanController π)
    (w : World σ) (t1 : Int) (f1 : fanController π) (w1 : World σ)
    (htick : calculateTargetPwm sys FindClosest (curveValue, none) f w = some (t1, f1, w1))
    (hinc : f1.fan.GetMinPwm = f.fan.GetMinPwm + 1)
    (g : fanController π) (hsame : sameTuning g f1) (w' : World σ) :
    t1 = quantizedTarget FindClosest f curveValue + 1 ∧ t1 ≤ f.fan.GetMaxPwm
      ∧ ∃ f2 w2,
        calculateTargetPwm sys FindClosest (curveValue, none) g w'
            = some (quantizedTarget FindClosest g curveValue, f2, w2)
          ∧ f2.fan.GetMinPwm = f.fan.GetMinPwm + 1
          ∧ f.fan.GetMinPwm < f2.fan.GetMinPwm
          ∧ f2.fan.GetMaxPwm = f.fan.GetMaxPwm := by
  obtain ⟨hcfg, havg, -, -⟩ := hsame
  obtain ⟨p, h⟩ := calculateTargetPwm_cases sys FindClosest curveValue f w
  rw [h] at htick
  have hsame_min : ∀ q : Int, ({ f.fan with Pwm := q } : HwMonFan).GetMinPwm = f.fan.GetMinPwm :=
    fun q => GetMinPwm_of_Config _ _ rfl
  split_ifs at htick with hc hm
  · simp only [Option.some.injEq, Prod.mk.injEq] at htick
    obtain ⟨-, hf, -⟩ := htick
    subst hf
    simp only [hsame_min] at hinc
    omega
  · simp only [Option.some.injEq, Prod.mk.injEq] at htick
    obtain ⟨ht, hf, -⟩ := htick
    subst hf
    simp only at hcfg havg hinc
    have hmax1 : (HwMonFan.SetRpmAvg (HwMonFan.SetMinPwm { f.fan with Pwm := p }
        (f.fan.GetMinPwm + 1)) (F64.ofInt 1)).GetMaxPwm = f.fan.GetMaxPwm := by
      simp [HwMonFan.GetMaxPwm, HwMonFan.SetMinPwm, HwMonFan.SetRpmAvg]
    have havg1 : g.fan.RpmMovingAvg = F64.ofInt 1 := by
      rw [havg]
      rfl
    obtain ⟨p2, h2⟩ := calculateTargetPwm_cases sys FindClosest curveValue g w'
    have hno : ¬ ((decide (g.fan.Config.RpmInput.length > 0) = true
        ∧ g.fan.Config.NeverStop = true ∧ g.lastSetPwm ≠ none)
        ∧ F64.le g.fan.RpmMovingAvg (F64.ofInt 0)) := by
      rw [havg1]
      intro hle
      exact absurd hle.2 (by decide)
    rw [if_neg hno] at h2
    have hgmin : ({ g.fan with Pwm := p2 } : HwMonFan).GetMinPwm = f.fan.GetMinPwm + 1 :=
      (GetMinPwm_of_Config { g.fan with Pwm := p2 } g.fan rfl).trans
        ((GetMinPwm_of_Config g.fan _ hcfg).trans hinc)
    have hgmax : ({ g.fan with Pwm := p2 } : HwMonFan).GetMaxPwm = f.fan.GetMaxPwm :=
      (GetMaxPwm_of_Config { g.fan with Pwm := p2 } g.fan rfl).trans
        ((GetMaxPwm_of_Config g.fan _ hcfg).trans hmax1)
    refine ⟨ht.symm, ?_, _, _, h2, hgmin, ?_, hgmax⟩
    · have : ¬ (quantizedTarget FindClosest f curveValue ≥ f.fan.GetMaxPwm) := hm
      omega
    · rw [hgmin]
      omega
  · simp only [Option.some.injEq, Prod.mk.injEq] at htick
    obtain ⟨-, hf, -⟩ := htick
    subst hf
    simp only [hsame_min] at hinc
    omega

/-- Witness of `C11_next_tick_after_increment`: the two ticks of the ideal linear fan. -/
theorem C11_next_tick_after_increment_witness :
    (calculateTargetPwm identitySysfs nearest (0, none)
        (identityController fanBeforeIncrement) (simWorld 48 1)
        = some (49, identityController fanAfterIncrement, simWorld 48 1)
      ∧ (identityController fanAfterIncrement).fan.GetMinPwm
          = (identityController fanBeforeIncrement).fan.GetMinPwm + 1
      ∧ sameTuning (identityController fanAfterIncrement) (identityController fanAfterIncrement))
    ∧ ((49 : Int) = quantizedTarget nearest (identityController fanBeforeIncrement) 0 + 1
      ∧ (49 : Int) ≤ (identityController fanBeforeIncrement).fan.GetMaxPwm
      ∧ ∃ f2 w2,
        calculateTargetPwm identitySysfs nearest (0, none)
            (identityController fanAfterIncrement) (simWorld 48 1)
            = some (quantizedTarget nearest (identityController fanAfterIncrement) 0, f2, w2)
          ∧ f2.fan.GetMinPwm = (identityController fanBeforeIncrement).fan.GetMinPwm + 1
          ∧ (identityController fanBeforeIncrement).fan.GetMinPwm < f2.fan.GetMinPwm
          ∧ f2.fan.GetMaxPwm = (identityController fanBeforeIncrement).fan.GetMaxPwm) :=
  ⟨⟨by decide!, by decide!, by decide!⟩,
    C11_next_tick_after_increment identitySysfs nearest 0
      (identityController fanBeforeIncrement) (simWorld 48 1)
      49 (identityController fanAfterIncrement) (simWorld 48 1)
      (by decide!) (by decide!)
      (identityController fanAfterIncrement) (by decide!) (simWorld 48 1)⟩

/-! ## C12: `SetPwmEnabled` -/

theorem ReadIntFromFile_countingReads {σ : Type} (sys : Sysfs σ) (path : Endpoint)
    (w : World (σ × Nat)) :
    (ReadIntFromFile (countingReads sys) path w).2.dev.2 = w.dev.2 + 1 := by
  unfold ReadIntFromFile
  rcases h : (countingReads sys).readFile path w.dev with ⟨r, d⟩
  have hd : d.2 = w.dev.2 + 1 := by
    have := congrArg (fun x => x.2.2) h
    simpa [countingReads] using this.symm
  cases r <;> exact hd

theorem WriteIntToFile_countingReads {σ : Type} (sys : Sysfs σ) (value : Int)
    (path : Endpoint) (w : World (σ × Nat)) :
    (WriteIntToFile (countingReads sys) value path w).2.dev.2 = w.dev.2 := by
  simp [WriteIntToFile, countingReads]

/-- C12: `SetPwmEnabled(v)` returns no error if and only if the write of `v` succeeds and
the read-back succeeds and returns `v`; when the write fails it returns the error of the
write, in the state left by the write and without any read; when the write succeeds and
the read-back fails or returns another value it returns the error `PWM mode stuck to`
the value read, after exactly one read. -/
theorem C12_SetPwmEnabled {σ : Type} (sys : Sysfs σ) (value : Int) (w : World σ) :
    ((HwMonFan.SetPwmEnabled sys value w).1 = none
        ↔ (WriteIntToFile sys value Endpoint.pwmEnable w).1 = none
          ∧ (ReadIntFromFile sys Endpoint.pwmEnable
              (WriteIntToFile sys value Endpoint.pwmEnable w).2).1.2 = none
          ∧ (ReadIntFromFile sys Endpoint.pwmEnable
              (WriteIntToFile sys value Endpoint.pwmEnable w).2).1.1 = value)
      ∧ (∀ err, (WriteIntToFile sys value Endpoint.pwmEnable w).1 = some err →
          HwMonFan.SetPwmEnabled sys value w
            = (some err, (WriteIntToFile sys value Endpoint.pwmEnable w).2))
      ∧ ((WriteIntToFile sys value Endpoint.pwmEnable w).1 = none →
          HwMonFan.SetPwmEnabled sys value w
            = (if (ReadIntFromFile sys Endpoint.pwmEnable
                    (WriteIntToFile sys value Endpoint.pwmEnable w).2).1.2 = none
                  ∧ (ReadIntFromFile sys Endpoint.pwmEnable
                    (WriteIntToFile sys value Endpoint.pwmEnable w).2).1.1 = value then
                (none, (ReadIntFromFile sys Endpoint.pwmEnable
                    (WriteIntToFile sys value Endpoint.pwmEnable w).2).2)
              else
                (some (GoError.modeStuck (ReadIntFromFile sys Endpoint.pwmEnable
                    (WriteIntToFile sys value Endpoint.pwmEnable w).2).1.1),
                  (ReadIntFromFile sys Endpoint.pwmEnable
                    (WriteIntToFile sys value Endpoint.pwmEnable w).2).2)))
      ∧ (∀ reads : Nat,
          (HwMonFan.SetPwmEnabled (countingReads sys) value
              { dev := (w.dev, reads), writes := w.writes }).2.dev.2
            = (if (WriteIntToFile sys value Endpoint.pwmEnable w).1 = none then reads + 1
               else reads)) := by
  refine ⟨?_, ?_, ?_, ?_⟩
  · unfold HwMonFan.SetPwmEnabled
    rcases hw : WriteIntToFile sys value Endpoint.pwmEnable w with ⟨e, w1⟩
    cases e with
    | some err => simp
    | none =>
      simp only [true_and]
      rcases hr : ReadIntFromFile sys Endpoint.pwmEnable w1 with ⟨⟨cur, rerr⟩, w2⟩
      simp only []
      by_cases hc : rerr ≠ none ∨ cur ≠ value
      · rw [if_pos hc]
        simp only [reduceCtorEq, false_iff, not_and]
        intro h1 h2
        rcases hc with h | h
        · exact h h1
        · exact h h2
      · rw [if_neg hc]
        simp only [true_iff]
        constructor
        · by_contra h
          exact hc (Or.inl h)
        · by_contra h
          exact hc (Or.inr h)
  · intro err herr
    unfold HwMonFan.SetPwmEnabled
    rcases hw : WriteIntToFile sys value Endpoint.pwmEnable w with ⟨e, w1⟩
    rw [hw] at herr
    simp only at herr
    subst herr
    rfl
  · intro hnone
    unfold HwMonFan.SetPwmEnabled
    rcases hw : WriteIntToFile sys value Endpoint.pwmEnable w with ⟨e, w1⟩
    rw [hw] at hnone
    simp only at hnone
    subst hnone
    simp only []
    rcases hr : ReadIntFromFile sys Endpoint.pwmEnable w1 with ⟨⟨cur, rerr⟩, w2⟩
    simp only []
    by_cases hc : rerr ≠ none ∨ cur ≠ value
    · rw [if_pos hc, if_neg]
      intro h
      rcases hc with h1 | h1
      · exact h1 h.1
      · exact h1 h.2
    · rw [if_neg hc, if_pos]
      constructor
      · by_contra h
        exact hc (Or.inl h)
      · by_contra h
        exact hc (Or.inr h)
  · intro reads
    have hwe : (WriteIntToFile (countingReads sys) value Endpoint.pwmEnable
        { dev := (w.dev, reads), writes := w.writes }).1
        = (WriteIntToFile sys value Endpoint.pwmEnable w).1 := by
      simp [WriteIntToFile, countingReads]
    have hwc := WriteIntToFile_countingReads sys value Endpoint.pwmEnable
      { dev := (w.dev, reads), writes := w.writes }
    unfold HwMonFan.SetPwmEnabled
    rcases hw : WriteIntToFile (countingReads sys) value Endpoint.pwmEnable
      { dev := (w.dev, reads), writes := w.writes } with ⟨e, w1⟩
    rw [hw] at hwe hwc
    simp only at hwe hwc
    rw [← hwe]
    cases e with
    | some err => simpa using hwc
    | none =>
      simp only [if_true]
      have hrc := ReadIntFromFile_countingReads sys Endpoint.pwmEnable w1
      rcases hr : ReadIntFromFile (countingReads sys) Endpoint.pwmEnable w1
        with ⟨⟨cur, rerr⟩, w2⟩
      rw [hr] at hrc
      simp only at hrc
      simp only []
      split_ifs <;> simp only [hrc, hwc]

/-- Three runs of `SetPwmEnabled(1)` from mode 2: the stable fan accepts the mode, the fan
with the locked mode file yields `PWM mode stuck to 2`, and the fan without the file
yields the error of the write. -/
theorem SetPwmEnabled_examples :
    HwMonFan.SetPwmEnabled (quantizedSysfs true) 1 (simWorld 0 2)
        = (none, { dev := { pwm := 0, enable := 1 }, writes := [(Endpoint.pwmEnable, 1)] })
      ∧ HwMonFan.SetPwmEnabled lockedModeSysfs 1 (simWorld 0 2)
        = (some (GoError.modeStuck 2),
            { dev := { pwm := 0, enable := 2 }, writes := [(Endpoint.pwmEnable, 1)] })
      ∧ HwMonFan.SetPwmEnabled (quantizedSysfs false) 1 (simWorld 0 2)
        = (some (GoError.os 2),
            { dev := { pwm := 0, enable := 2 }, writes := [(Endpoint.pwmEnable, 1)] }) := by
  refine ⟨by decide!, by decide!, by decide!⟩

end Fan2go
